import Mathlib

/-!
# go-filecoin: leader election and miner ledger accounting

A shallow embedding of

* `consensus.IsWinningTicket` (exercised by `consensus/expected_test.go`),
* the miner actor of `actor/builtin/miner/miner.go`
  (`NewActor`, `AddAsk`, `AddDealsToSector`, `upsertDealsToSector`, `CommitSector`),
* the naive bin packer and the `testBinner` of `util/binpack/bin_packer_test.go`,

together with the properties proved about them.
-/

namespace Filecoin

/-- One byte of a Go byte slice. -/
abbrev Byte := Fin 256

/-- Stand-in for `types.Address` (only compared for equality). -/
abbrev Address := Nat

/-! ## consensus -/

namespace consensus

/-- The `PowerTableView` interface as the tests in `expected_test.go` implement it:
`Total` and `Miner` both return a `uint64` together with an `error`
(`none` is Go's `nil` error).  The failing test views return a value and an error at once. -/
structure PowerTableView where
  Total : Nat × Option String
  Miner : Address → Nat × Option String

/-- Modelled from the spec: `consensus.NewTestPowerTableView` is not in the sources at hand;
`expected_test.go` uses it as the view whose two queries succeed with the given
miner power and total power. -/
def NewTestPowerTableView (minerPower totalPower : Nat) : PowerTableView :=
  { Total := (totalPower, none), Miner := fun _ => (minerPower, none) }

/-- The view `FailingTestPowerTableView` of `expected_test.go`: the total-power query fails. -/
def NewFailingTestPowerTableView (minerPower totalPower : Nat) : PowerTableView :=
  { Total := (totalPower, some "something went wrong with the total power"),
    Miner := fun _ => (minerPower, none) }

/-- The view `FailingMinerTestPowerTableView` of `expected_test.go`: the miner-power query fails. -/
def NewFailingMinerTestPowerTableView (minerPower totalPower : Nat) : PowerTableView :=
  { Total := (totalPower, none),
    Miner := fun _ => (minerPower, some "something went wrong with the miner power") }

/-- Modelled from the spec: the ticket "treated as a big-endian non-negative integer"
(the first byte is the most significant one). -/
def ticketValue (ticket : List Byte) : Nat :=
  ticket.foldl (fun acc b => acc * 256 + b.val) 0

/-- The largest ticket of a given byte length: every byte is `0xFF`. -/
def maxTicket (n : Nat) : List Byte := List.replicate n 255

/-- Modelled from the spec: "the maximum representable value for the ticket's byte length
plus one (i.e., the ticket space size)". -/
def ticketSpace (n : Nat) : Nat := ticketValue (maxTicket n) + 1

/-- Modelled from the spec: `consensus.IsWinningTicket` is not in the sources at hand (only its
test is).  Section 4.4 of the specification: both power queries must succeed, otherwise the
lookup error is propagated (with the prefixes the test expects) and the verdict is `false`;
otherwise the miner wins iff `T * totalPower < minerPower * M` in exact integer arithmetic.
The Go result `(bool, error)` is the pair below. -/
def IsWinningTicket (ptv : PowerTableView) (ticket : List Byte) (miner : Address) :
    Bool × Option String :=
  match ptv.Total with
  | (_, some e) => (false, some ("Couldn't get totalPower: " ++ e))
  | (totalPower, none) =>
    match ptv.Miner miner with
    | (_, some e) => (false, some ("Couldn't get minerPower: " ++ e))
    | (myPower, none) =>
      (decide (ticketValue ticket * totalPower < myPower * ticketSpace ticket.length), none)

/-- The ticket built by `TestIsWinningTicket`: `sha256.Size` = 32 bytes, all zero except
the first. -/
def testTicket (first : Byte) : List Byte := first :: List.replicate 31 0

/-- All tickets of `n` bytes, each exactly once, in increasing order of their value. -/
def allTickets : Nat → List (List Byte)
  | 0 => [[]]
  | n + 1 => (List.finRange 256).flatMap (fun b => (allTickets n).map (fun t => b :: t))

/-- The number of `n`-byte tickets for which `IsWinningTicket` returns `true`. -/
def winningCount (ptv : PowerTableView) (n : Nat) (miner : Address) : Nat :=
  ((allTickets n).filter (fun t => (IsWinningTicket ptv t miner).1)).length

end consensus

/-! ## actor/builtin/miner -/

namespace miner

/-- Modelled from the spec: `types.BytesAmount` is not in the sources at hand.  It wraps an
arbitrary-precision integer built from a `uint64` (`NewBytesAmount`) or from big-endian bytes
(`NewBytesAmountFromBytes`), so it is a non-negative integer ("capacity", "power"); a nil
amount counts as zero in `Add` and `GreaterThan`. -/
abbrev BytesAmount := Nat

/-- Stand-in for `types.TokenAmount`: the miner actor only stores it and passes it on. -/
abbrev TokenAmount := Nat

/-- The value `types.NewBytesAmountFromBytes` reads: `big.Int.SetBytes`, big-endian. -/
def NewBytesAmountFromBytes (buf : List Byte) : BytesAmount :=
  buf.foldl (fun acc b => acc * 256 + b.val) 0

/-- Go's `Sector`: `CommR` is a byte slice, `none` being the nil slice. -/
structure Sector where
  CommR : Option (List Byte)
  Deals : List Nat
deriving DecidableEq, Repr

/-- The result of Go's `new(Sector)`. -/
def Sector.new : Sector := { CommR := none, Deals := [] }

/-- Go's `Storage`, the miner ledger. -/
structure Storage where
  Owner : Address
  PledgeBytes : BytesAmount
  Collateral : TokenAmount
  Sectors : List Sector
  LockedStorage : BytesAmount
  Power : BytesAmount
deriving DecidableEq, Repr

/-- Errors of `vm/errors` as the miner actor produces them.  `sendFailed` is an error handed
back by `ctx.Send`, which the actor returns as it received it; `faultWrap` is
`errors.FaultErrorWrap cause msg`. -/
inductive VMError where
  | revert (msg : String)
  | faultWrap (cause : String) (msg : String)
  | sendFailed (cause : String)
deriving DecidableEq, Repr

/-- Go's `ErrCallerUnauthorized`. -/
def ErrCallerUnauthorized : VMError := .revert "not authorized to call the method"

/-- Go's `ErrInsufficientPledge`. -/
def ErrInsufficientPledge : VMError := .revert "not enough pledged"

/-- A message the actor sends to `address.StorageMarketAddress` (value `nil`). -/
inductive Message where
  | addAsk (price : TokenAmount) (size : BytesAmount)
  | commitDeals (deals : List Nat)
deriving DecidableEq, Repr

/-- What `ctx.Send` returns: output bytes, exit code (`uint8`) and error. -/
structure SendResult where
  out : List Byte
  ret : Nat
  err : Option String
deriving DecidableEq, Repr

/-- The part of `exec.VMContext` the actor uses: the sender of the message being executed,
the effect of `Send` on the storage market, and `abi.Deserialize` at type `abi.Integer`
(the `abi` package is not in the sources at hand, so the decoder is carried here). -/
structure VMContext where
  From : Address
  Send : Message → SendResult
  DeserializeInteger : List Byte → Except String Int

/-- A Go `interface{}` value as the closures given to `WithStorage` return it. -/
inductive Value where
  | nil
  | int64 (v : Int)
  | bigInt (v : Int)
deriving DecidableEq, Repr

/-- How a piece of Go code ends: a value with a nil error, a non-nil error, or a runtime
panic (index out of range). -/
inductive Exec (α : Type) where
  | ok (a : α)
  | error (e : VMError)
  | panic
deriving DecidableEq, Repr

/-- A run of a closure over the in-memory ledger `mstore`: the ledger as the closure left it,
the messages it sent, and how it ended. -/
structure Run (α : Type) where
  mstore : Storage
  sent : List Message
  result : Exec α

/-- What an exported method hands back: `(*big.Int, uint8, error)`, or a panic. -/
inductive Return where
  | returned (val : Option Int) (exitCode : Nat) (err : Option VMError)
  | panicked
deriving DecidableEq, Repr

/-- An exported method call seen from outside: the ledger persisted afterwards, the messages
sent to the storage market, and what was returned. -/
structure Outcome where
  storage : Storage
  sent : List Message
  ret : Return
deriving DecidableEq, Repr

/-- The `error` component of what a method returned (`none` is nil; a panic returns
nothing). -/
def Return.err : Return → Option VMError
  | .returned _ _ err => err
  | .panicked => none

/-- Go slice indexing `xs[i]` with an `int64` index: `none` is the runtime panic
"index out of range". -/
def index {α : Type} (xs : List α) (i : Int) : Option α :=
  if 0 ≤ i ∧ i < (xs.length : Int) then xs.get? i.toNat else none

/-- Modelled from the spec: `actor.WithStorage` is not in the sources at hand.  It loads the
persisted ledger into `mstore`, runs the closure, and writes `mstore` back only if the closure
returned a nil error ("a failure at any step discards all speculative mutation for that
call").  Encoding and decoding of the ledger are taken to succeed. -/
def WithStorage {α : Type} (stored : Storage) (f : Storage → Run α) :
    Storage × List Message × Exec α :=
  let r := f stored
  match r.result with
  | .ok a => (r.mstore, r.sent, .ok a)
  | .error e => (stored, r.sent, .error e)
  | .panic => (stored, r.sent, .panic)

/-- Go's `NewActor`: the ledger it marshals into the new actor's memory
(`Sectors` and `Power` are left at their zero values). -/
def NewActor (owner : Address) (pledge : BytesAmount) (coll : TokenAmount) : Storage :=
  { Owner := owner, PledgeBytes := pledge, Collateral := coll, Sectors := [],
    LockedStorage := 0, Power := 0 }

/-- The closure of Go's `AddAsk`. -/
def addAskBody (ctx : VMContext) (price : TokenAmount) (size : BytesAmount)
    (mstore : Storage) : Run Value :=
  if ctx.From ≠ mstore.Owner then
    { mstore := mstore, sent := [], result := .error ErrCallerUnauthorized }
  else
    let total := mstore.LockedStorage + size
    if total > mstore.PledgeBytes then
      { mstore := mstore, sent := [], result := .error ErrInsufficientPledge }
    else
      let mstore := { mstore with LockedStorage := total }
      let msg := Message.addAsk price size
      let r := ctx.Send msg
      match r.err with
      | some e => { mstore := mstore, sent := [msg], result := .error (.sendFailed e) }
      | none =>
        match ctx.DeserializeInteger r.out with
        | .error e =>
          { mstore := mstore, sent := [msg],
            result := .error (.faultWrap e "error deserializing") }
        | .ok askID =>
          if r.ret ≠ 0 then
            { mstore := mstore, sent := [msg],
              result := .error (.revert "call to StorageMarket.addAsk failed") }
          else
            { mstore := mstore, sent := [msg], result := .ok (Value.bigInt askID) }

/-- Go's `Actor.AddAsk`. -/
def AddAsk (ctx : VMContext) (stored : Storage) (price : TokenAmount) (size : BytesAmount) :
    Outcome :=
  match WithStorage stored (addAskBody ctx price size) with
  | (st, sent, .error e) => { storage := st, sent := sent, ret := .returned none 1 (some e) }
  | (st, sent, .panic) => { storage := st, sent := sent, ret := .panicked }
  | (st, sent, .ok out) =>
    match out with
    | .bigInt askID => { storage := st, sent := sent, ret := .returned (some askID) 0 none }
    | _ =>
      { storage := st, sent := sent,
        ret := .returned none 1
          (some (.revert "expected an Integer return value from call, but got %T instead")) }

/-- Go's `Storage.upsertDealsToSector`: the ledger as the method left it and what it
returned. -/
def upsertDealsToSector (mstore : Storage) (sectorID : Int) (deals : List Nat) :
    Storage × Exec Int :=
  let mstore1 : Storage :=
    if sectorID = -1 then { mstore with Sectors := mstore.Sectors ++ [Sector.new] } else mstore
  let sectorID1 : Int := if sectorID = -1 then (mstore.Sectors.length : Int) else sectorID
  if sectorID1 ≥ (mstore1.Sectors.length : Int) then
    (mstore1, .error (.revert "sectorID out of range"))
  else
    match index mstore1.Sectors sectorID1 with
    | none => (mstore1, .panic)
    | some sector =>
      if sector.CommR ≠ none then
        (mstore1, .error (.revert "can't add deals to committed sector"))
      else
        ({ mstore1 with
            Sectors := mstore1.Sectors.set sectorID1.toNat
              { sector with Deals := sector.Deals ++ deals } },
         .ok sectorID1)

/-- The closure of Go's `AddDealsToSector`. -/
def addDealsToSectorBody (sectorID : Int) (deals : List Nat) (mstore : Storage) : Run Value :=
  match upsertDealsToSector mstore sectorID deals with
  | (m, .ok sid) => { mstore := m, sent := [], result := .ok (Value.int64 sid) }
  | (m, .error e) => { mstore := m, sent := [], result := .error e }
  | (m, .panic) => { mstore := m, sent := [], result := .panic }

/-- The tail shared by Go's `AddDealsToSector` and `CommitSector`: the type assertion
`out.(int64)` and the values returned. -/
def returnSectorID (r : Storage × List Message × Exec Value) : Outcome :=
  match r with
  | (st, sent, .error e) => { storage := st, sent := sent, ret := .returned none 1 (some e) }
  | (st, sent, .panic) => { storage := st, sent := sent, ret := .panicked }
  | (st, sent, .ok out) =>
    match out with
    | .int64 secIDout =>
      { storage := st, sent := sent, ret := .returned (some secIDout) 0 none }
    | _ =>
      { storage := st, sent := sent,
        ret := .returned none 1 (some (.revert "expected an int64")) }

/-- Go's `Actor.AddDealsToSector`. -/
def AddDealsToSector (stored : Storage) (sectorID : Int) (deals : List Nat) : Outcome :=
  returnSectorID (WithStorage stored (addDealsToSectorBody sectorID deals))

/-- The second half of the closure of Go's `CommitSector`, from `mstore.Sectors[sectorID]`
on. -/
def commitResolved (ctx : VMContext) (commR : Option (List Byte)) (mstore : Storage)
    (sectorID : Int) : Run Value :=
  match index mstore.Sectors sectorID with
  | none => { mstore := mstore, sent := [], result := .panic }
  | some sector =>
    if sector.CommR ≠ none then
      { mstore := mstore, sent := [], result := .error (.revert "sector already committed") }
    else
      let msg := Message.commitDeals sector.Deals
      let r := ctx.Send msg
      match r.err with
      | some e => { mstore := mstore, sent := [msg], result := .error (.sendFailed e) }
      | none =>
        if r.ret ≠ 0 then
          { mstore := mstore, sent := [msg],
            result := .error (.revert "failed to call commitDeals") }
        else
          let power := NewBytesAmountFromBytes r.out
          { mstore :=
              { mstore with
                Sectors := mstore.Sectors.set sectorID.toNat { sector with CommR := commR }
                Power := mstore.Power + power },
            sent := [msg], result := .ok Value.nil }

/-- The closure of Go's `CommitSector`. -/
def commitSectorBody (ctx : VMContext) (sectorID : Int) (commR : Option (List Byte))
    (deals : List Nat) (mstore : Storage) : Run Value :=
  if deals.length ≠ 0 then
    match upsertDealsToSector mstore sectorID deals with
    | (m, .error e) => { mstore := m, sent := [], result := .error e }
    | (m, .panic) => { mstore := m, sent := [], result := .panic }
    | (m, .ok sid) => commitResolved ctx commR m sid
  else
    commitResolved ctx commR mstore sectorID

/-- Go's `Actor.CommitSector`. -/
def CommitSector (ctx : VMContext) (stored : Storage) (sectorID : Int)
    (commR : Option (List Byte)) (deals : List Nat) : Outcome :=
  returnSectorID (WithStorage stored (commitSectorBody ctx sectorID commR deals))

/-- One message to the miner actor: the method, its context and its arguments. -/
inductive Call where
  | addAsk (ctx : VMContext) (price : TokenAmount) (size : BytesAmount)
  | addDealsToSector (sectorID : Int) (deals : List Nat)
  | commitSector (ctx : VMContext) (sectorID : Int) (commR : Option (List Byte))
      (deals : List Nat)

/-- Dispatch of one call on the persisted ledger. -/
def Call.run (stored : Storage) : Call → Outcome
  | .addAsk ctx price size => AddAsk ctx stored price size
  | .addDealsToSector sectorID deals => AddDealsToSector stored sectorID deals
  | .commitSector ctx sectorID commR deals => CommitSector ctx stored sectorID commR deals

/-- The persisted ledger after a sequence of calls, each acting on what the previous one
left. -/
def runCalls (stored : Storage) (calls : List Call) : Storage :=
  calls.foldl (fun st c => (c.run st).storage) stored

/-- A storage market that accepts every message: output bytes `[9]`, exit code 0, nil
error. -/
def acceptingMarket : Message → SendResult :=
  fun _ => { out := [9], ret := 0, err := none }

/-- A decoder for `abi.Integer` that reads the bytes as a big-endian number. -/
def decodeInteger : List Byte → Except String Int :=
  fun buf => .ok (Int.ofNat (NewBytesAmountFromBytes buf))

/-- A context in which address 1 calls and the storage market accepts. -/
def ownerCtx : VMContext :=
  { From := 1, Send := acceptingMarket, DeserializeInteger := decodeInteger }

/-- A ledger owned by address 1 with one uncommitted sector holding deal 7. -/
def exampleLedger : Storage :=
  { Owner := 1, PledgeBytes := 10, Collateral := 0,
    Sectors := [{ CommR := none, Deals := [7] }], LockedStorage := 4, Power := 3 }

/-- A storage market that refuses every message: exit code 1, nil error. -/
def refusingMarket : Message → SendResult :=
  fun _ => { out := [], ret := 1, err := none }

/-- A context in which address 1 calls and the storage market refuses. -/
def refusedCtx : VMContext :=
  { From := 1, Send := refusingMarket, DeserializeInteger := decodeInteger }

/-- A context in which address 2 calls, which does not own the example ledger. -/
def strangerCtx : VMContext :=
  { From := 2, Send := acceptingMarket, DeserializeInteger := decodeInteger }

/-- A ledger owned by address 1 whose sector 0 is committed and whose sector 1 is not. -/
def committedLedger : Storage :=
  { Owner := 1, PledgeBytes := 10, Collateral := 0,
    Sectors := [{ CommR := some [1], Deals := [7] }, { CommR := none, Deals := [] }],
    LockedStorage := 4, Power := 12 }

end miner

/-! ## util/binpack -/

namespace binpack

/-- Go's `Space`, an unsigned machine integer: values are below `spaceModulus` and
arithmetic wraps around it. -/
abbrev Space := Nat

/-- Modelled from the spec: the declaration of `Space` is not in the sources at hand; it is
taken to be Go's `uint` on a 64-bit platform. -/
def spaceModulus : Nat := 2 ^ 64

/-- Go's `testItem` of `bin_packer_test.go`. -/
structure testItem where
  size : Space
deriving DecidableEq, Repr

/-- Go's `testBinner` of `bin_packer_test.go`.  `closeCount` starts at 0 and is only ever
incremented, so it is kept as a natural number. -/
structure testBinner where
  binSize : Space
  currentBinUsed : Space
  closeCount : Nat
deriving DecidableEq, Repr

/-- Go's `testBinner.AddItem`: `tb.currentBinUsed += item.size`. -/
def testBinner.AddItem (tb : testBinner) (item : testItem) : testBinner :=
  { tb with currentBinUsed := (tb.currentBinUsed + item.size) % spaceModulus }

/-- Go's `testBinner.BinSize`. -/
def testBinner.BinSize (tb : testBinner) : Space := tb.binSize

/-- Go's `testBinner.CloseBin`. -/
def testBinner.CloseBin (tb : testBinner) : testBinner :=
  { tb with currentBinUsed := 0, closeCount := tb.closeCount + 1 }

/-- Go's `testBinner.ItemSize`. -/
def testBinner.ItemSize (_tb : testBinner) (item : testItem) : Space := item.size

/-- Go's `testBinner.SpaceAvailable`: `tb.binSize - tb.currentBinUsed`, unsigned. -/
def testBinner.SpaceAvailable (tb : testBinner) : Space :=
  (tb.binSize + spaceModulus - tb.currentBinUsed % spaceModulus) % spaceModulus

/-- Modelled from the spec: `NaivePacker.PackItemIntoBin` is not in the sources at hand (only
its test is).  Section 4.6 of the specification: an item larger than the empty bin fails with
"item too large for bin" and changes nothing; an item that does not fit in the remaining space
closes the current bin and goes into a fresh one; otherwise it is added to the current bin.
`TestNaivePacker` fixes what happens when an item fills the bin exactly (18 + 2 of 20): the
item is added and the bin is closed at once, leaving used space 0.  The result is the binner
afterwards and the error (`none` is nil); the `Bin` handle is not used by `testBinner`. -/
def PackItemIntoBin (tb : testBinner) (item : testItem) : testBinner × Option String :=
  let size := tb.ItemSize item
  if size > tb.BinSize then
    (tb, some "item too large for bin")
  else
    let tb1 := if size > tb.SpaceAvailable then tb.CloseBin else tb
    let tb2 := tb1.AddItem item
    let tb3 := if tb2.SpaceAvailable = 0 then tb2.CloseBin else tb2
    (tb3, none)

/-- The binner of `TestNaivePacker`: bins of size 20, nothing used, nothing closed. -/
def testBinner20 : testBinner := { binSize := 20, currentBinUsed := 0, closeCount := 0 }

end binpack

/-! ## Facts about tickets -/

namespace consensus

theorem foldl_ticket_acc (ticket : List Byte) (a : Nat) :
    ticket.foldl (fun acc b => acc * 256 + b.val) a
      = a * 256 ^ ticket.length + ticketValue ticket := by
  induction ticket generalizing a with
  | nil => simp [ticketValue]
  | cons b bs ih =>
    simp only [List.foldl_cons, List.length_cons, ticketValue]
    rw [ih (a * 256 + b.val), ih (0 * 256 + b.val)]
    ring

theorem ticketValue_cons (b : Byte) (bs : List Byte) :
    ticketValue (b :: bs) = b.val * 256 ^ bs.length + ticketValue bs := by
  unfold ticketValue
  rw [List.foldl_cons, foldl_ticket_acc]
  simp [ticketValue]

/-- The big-endian value is the base-256 number whose least significant digit is the
last byte. -/
theorem ticketValue_eq_ofDigits (ticket : List Byte) :
    ticketValue ticket = Nat.ofDigits 256 (ticket.reverse.map (fun b => b.val)) := by
  induction ticket with
  | nil => simp [ticketValue]
  | cons b bs ih =>
    rw [ticketValue_cons, ih]
    simp [Nat.ofDigits_append, Nat.ofDigits_singleton]
    ring

theorem ticketValue_lt (ticket : List Byte) : ticketValue ticket < 256 ^ ticket.length := by
  induction ticket with
  | nil => simp [ticketValue]
  | cons b bs ih =>
    rw [ticketValue_cons, List.length_cons, pow_succ]
    have hb : b.val < 256 := b.isLt
    nlinarith

theorem ticketSpace_eq (n : Nat) : ticketSpace n = 256 ^ n := by
  induction n with
  | zero => simp [ticketSpace, maxTicket, ticketValue]
  | succ k ih =>
    have h : ticketValue (maxTicket (k + 1)) = 255 * 256 ^ k + ticketValue (maxTicket k) := by
      have := ticketValue_cons 255 (maxTicket k)
      simpa [maxTicket, List.replicate_succ] using this
    unfold ticketSpace at ih ⊢
    rw [h, pow_succ]
    omega

theorem ticketValue_testTicket (c : Byte) :
    ticketValue (testTicket c) = c.val * 256 ^ 31 := by
  have hz : ∀ n : Nat, ticketValue (List.replicate n (0 : Byte)) = 0 := by
    intro n
    induction n with
    | zero => simp [ticketValue]
    | succ k ih => rw [List.replicate_succ, ticketValue_cons, ih]; simp
  unfold testTicket
  rw [ticketValue_cons, hz]
  simp

theorem IsWinningTicket_of_powers (ptv : PowerTableView) (ticket : List Byte)
    (miner : Address) (totalPower minerPower : Nat)
    (hT : ptv.Total = (totalPower, none)) (hM : ptv.Miner miner = (minerPower, none)) :
    IsWinningTicket ptv ticket miner =
      (decide (ticketValue ticket * totalPower < minerPower * 256 ^ ticket.length), none) := by
  simp only [IsWinningTicket, hT, hM, ticketSpace_eq]

theorem IsWinningTicket_testTicket (c : Byte) (minerPower totalPower : Nat) (miner : Address) :
    IsWinningTicket (NewTestPowerTableView minerPower totalPower) (testTicket c) miner =
      (decide (c.val * 256 ^ 31 * totalPower < minerPower * 256 ^ 32), none) := by
  rw [IsWinningTicket_of_powers _ _ _ totalPower minerPower rfl rfl, ticketValue_testTicket]
  simp [testTicket]

/-- C1: when both power lookups succeed, `IsWinningTicket` returns `true` exactly when
`T * totalPower < minerPower * M`, with `T` the ticket read as a big-endian number (the
base-256 number whose digits are the bytes, last byte least significant) and
`M = 256 ^ (ticket length)`; and it agrees with the twelve rows of the table of
`TestIsWinningTicket` for 32-byte tickets whose only non-zero byte is the first. -/
theorem IsWinningTicket_spec :
    (∀ (ptv : PowerTableView) (ticket : List Byte) (miner : Address)
        (totalPower minerPower : Nat),
        ptv.Total = (totalPower, none) → ptv.Miner miner = (minerPower, none) →
        IsWinningTicket ptv ticket miner =
          (decide (Nat.ofDigits 256 (ticket.reverse.map (fun b => b.val)) * totalPower
                    < minerPower * 256 ^ ticket.length), none))
    ∧ (∀ miner : Address,
        IsWinningTicket (NewTestPowerTableView 1 5) (testTicket 0x00) miner = (true, none)
      ∧ IsWinningTicket (NewTestPowerTableView 1 5) (testTicket 0x30) miner = (true, none)
      ∧ IsWinningTicket (NewTestPowerTableView 1 5) (testTicket 0x40) miner = (false, none)
      ∧ IsWinningTicket (NewTestPowerTableView 1 5) (testTicket 0xF0) miner = (false, none)
      ∧ IsWinningTicket (NewTestPowerTableView 5 5) (testTicket 0x00) miner = (true, none)
      ∧ IsWinningTicket (NewTestPowerTableView 5 5) (testTicket 0x33) miner = (true, none)
      ∧ IsWinningTicket (NewTestPowerTableView 5 5) (testTicket 0x44) miner = (true, none)
      ∧ IsWinningTicket (NewTestPowerTableView 5 5) (testTicket 0xFF) miner = (true, none)
      ∧ IsWinningTicket (NewTestPowerTableView 0 5) (testTicket 0x00) miner = (false, none)
      ∧ IsWinningTicket (NewTestPowerTableView 0 5) (testTicket 0x33) miner = (false, none)
      ∧ IsWinningTicket (NewTestPowerTableView 0 5) (testTicket 0x44) miner = (false, none)
      ∧ IsWinningTicket (NewTestPowerTableView 0 5) (testTicket 0xFF) miner = (false, none)) := by
  refine ⟨?_, ?_⟩
  · intro ptv ticket miner totalPower minerPower hT hM
    rw [IsWinningTicket_of_powers ptv ticket miner totalPower minerPower hT hM,
      ticketValue_eq_ofDigits]
  · intro miner
    simp only [IsWinningTicket_testTicket]
    refine ⟨?_, ?_, ?_, ?_, ?_, ?_, ?_, ?_, ?_, ?_, ?_, ?_⟩ <;> decide

/-- Witness for C1: the general statement applied to the test view with power 1 of 5 and
the ticket whose first byte is `0x30`. -/
theorem IsWinningTicket_spec_witness :
    IsWinningTicket (NewTestPowerTableView 1 5) (testTicket 0x30) 7 =
      (decide (Nat.ofDigits 256 ((testTicket 0x30).reverse.map (fun b => b.val)) * 5
                < 1 * 256 ^ (testTicket 0x30).length), none) :=
  IsWinningTicket_spec.1 (NewTestPowerTableView 1 5) (testTicket 0x30) 7 5 1 rfl rfl

/-- C2: a miner whose power is 0 never wins, for every ticket of every length and whatever
the total-power query returns: the verdict is `false`, and it comes without an error when the
total-power query succeeded. -/
theorem IsWinningTicket_zero_power (ptv : PowerTableView) (ticket : List Byte)
    (miner : Address) (hM : ptv.Miner miner = (0, none)) :
    (IsWinningTicket ptv ticket miner).1 = false ∧
      ∀ totalPower : Nat, ptv.Total = (totalPower, none) →
        IsWinningTicket ptv ticket miner = (false, none) := by
  refine ⟨?_, ?_⟩
  · rcases hT : ptv.Total with ⟨t, _ | e⟩
    · rw [IsWinningTicket_of_powers ptv ticket miner t 0 hT hM]
      simp
    · simp [IsWinningTicket, hT]
  · intro totalPower hT
    rw [IsWinningTicket_of_powers ptv ticket miner totalPower 0 hT hM]
    simp

/-- Witness for C2: the all-zero 32-byte ticket with power 0 of 5. -/
theorem IsWinningTicket_zero_power_witness :
    (IsWinningTicket (NewTestPowerTableView 0 5) (testTicket 0x00) 7).1 = false ∧
      ∀ totalPower : Nat, (NewTestPowerTableView 0 5).Total = (totalPower, none) →
        IsWinningTicket (NewTestPowerTableView 0 5) (testTicket 0x00) 7 = (false, none) :=
  IsWinningTicket_zero_power (NewTestPowerTableView 0 5) (testTicket 0x00) 7 rfl

/-- C3, as stated, fails when the total power is 0: the miner's power then equals the total
power, both queries succeed, and the verdict is `false`, even for the all-zero ticket. -/
theorem IsWinningTicket_full_power_zero_total :
    (NewTestPowerTableView 0 0).Total = (0, none) ∧
    (NewTestPowerTableView 0 0).Miner 7 = (0, none) ∧
    IsWinningTicket (NewTestPowerTableView 0 0) (testTicket 0x00) 7 = (false, none) := by
  refine ⟨rfl, rfl, ?_⟩
  rw [IsWinningTicket_testTicket]
  decide

/-- C3 (amended): for every ticket, up to and including the all-`0xFF` maximum ticket, and
every total power greater than 0, a miner whose power equals the total power wins. -/
theorem IsWinningTicket_full_power (ptv : PowerTableView) (ticket : List Byte)
    (miner : Address) (power : Nat) (hpos : 0 < power)
    (hT : ptv.Total = (power, none)) (hM : ptv.Miner miner = (power, none)) :
    IsWinningTicket ptv ticket miner = (true, none) := by
  rw [IsWinningTicket_of_powers ptv ticket miner power power hT hM]
  have h := ticketValue_lt ticket
  have : ticketValue ticket * power < power * 256 ^ ticket.length := by
    rw [Nat.mul_comm power]
    exact Nat.mul_lt_mul_of_pos_right h hpos
  simp [this]

/-- Witness for amended C3: the maximum 32-byte ticket with power 5 of 5. -/
theorem IsWinningTicket_full_power_witness :
    IsWinningTicket (NewTestPowerTableView 5 5) (maxTicket 32) 7 = (true, none) :=
  IsWinningTicket_full_power (NewTestPowerTableView 5 5) (maxTicket 32) 7 5 (by decide) rfl rfl

/-- C20: if the total-power query or the miner-power query fails, `IsWinningTicket` returns
`false` together with an error: "Couldn't get totalPower: " followed by the error of the
total-power query, or "Couldn't get minerPower: " followed by the error of the miner-power
query, whatever power values the queries returned.  On the two failing views of
`expected_test.go` the errors are the ones the test expects. -/
theorem IsWinningTicket_lookup_failure :
    (∀ (ptv : PowerTableView) (ticket : List Byte) (miner : Address),
        (ptv.Total.2 ≠ none ∨ (ptv.Miner miner).2 ≠ none) →
        (∃ cause, ptv.Total.2 = some cause ∧
            IsWinningTicket ptv ticket miner
              = (false, some ("Couldn't get totalPower: " ++ cause))) ∨
        (∃ cause, (ptv.Miner miner).2 = some cause ∧
            IsWinningTicket ptv ticket miner
              = (false, some ("Couldn't get minerPower: " ++ cause)))) ∧
    (∀ miner : Address,
        IsWinningTicket (NewFailingTestPowerTableView 1 5) (testTicket 0x00) miner =
          (false, some "Couldn't get totalPower: something went wrong with the total power") ∧
        IsWinningTicket (NewFailingMinerTestPowerTableView 1 5) (testTicket 0x00) miner =
          (false, some "Couldn't get minerPower: something went wrong with the miner power")) := by
  refine ⟨?_, ?_⟩
  · intro ptv ticket miner h
    rcases hT : ptv.Total with ⟨t, _ | e⟩
    · rcases hM : ptv.Miner miner with ⟨m, _ | e⟩
      · rw [hT, hM] at h
        rcases h with h | h <;> exact absurd rfl h
      · right
        exact ⟨e, rfl, by simp only [IsWinningTicket, hT, hM]⟩
    · left
      exact ⟨e, rfl, by simp only [IsWinningTicket, hT]⟩
  · intro miner
    constructor
    · simp only [IsWinningTicket, NewFailingTestPowerTableView]
      decide
    · simp only [IsWinningTicket, NewFailingMinerTestPowerTableView]
      decide

/-- Witness for C20: the view of the test whose total-power query fails while returning
the value 5. -/
theorem IsWinningTicket_lookup_failure_witness :
    (∃ cause, (NewFailingTestPowerTableView 1 5).Total.2 = some cause ∧
        IsWinningTicket (NewFailingTestPowerTableView 1 5) (testTicket 0x00) 7
          = (false, some ("Couldn't get totalPower: " ++ cause))) ∨
    (∃ cause, ((NewFailingTestPowerTableView 1 5).Miner 7).2 = some cause ∧
        IsWinningTicket (NewFailingTestPowerTableView 1 5) (testTicket 0x00) 7
          = (false, some ("Couldn't get minerPower: " ++ cause))) :=
  IsWinningTicket_lookup_failure.1 (NewFailingTestPowerTableView 1 5) (testTicket 0x00) 7
    (Or.inl (by decide))

theorem length_of_mem_allTickets (n : Nat) (t : List Byte) (h : t ∈ allTickets n) :
    t.length = n := by
  induction n generalizing t with
  | zero =>
    simp only [allTickets, List.mem_singleton] at h
    subst h
    rfl
  | succ k ih =>
    simp only [allTickets, List.mem_flatMap, List.mem_map] at h
    obtain ⟨b, _, s, hs, rfl⟩ := h
    simp [ih s hs]

/-- Every ticket of `n` bytes is listed by `allTickets n`, which lists nothing else. -/
theorem mem_allTickets (n : Nat) (t : List Byte) : t ∈ allTickets n ↔ t.length = n := by
  constructor
  · exact length_of_mem_allTickets n t
  · intro h
    induction n generalizing t with
    | zero =>
      have : t = [] := List.length_eq_zero.mp h
      subst this
      simp [allTickets]
    | succ k ih =>
      cases t with
      | nil => simp at h
      | cons b s =>
        simp only [allTickets, List.mem_flatMap, List.mem_map]
        refine ⟨b, List.mem_finRange b, s, ih s ?_, rfl⟩
        simpa using h

theorem range_mul_flatMap (a k : Nat) :
    (List.range a).flatMap (fun b => (List.range k).map (fun x => b * k + x))
      = List.range (a * k) := by
  induction a with
  | zero => simp
  | succ c ih =>
    rw [List.range_succ, List.flatMap_append, ih, Nat.succ_mul, List.range_add]
    simp

/-- The values of the `n`-byte tickets are the numbers below `256 ^ n`, each once. -/
theorem map_ticketValue_allTickets (n : Nat) :
    (allTickets n).map ticketValue = List.range (256 ^ n) := by
  induction n with
  | zero => rfl
  | succ k ih =>
    have hinner : ∀ b : Byte,
        ((allTickets k).map (fun t => b :: t)).map ticketValue
          = (List.range (256 ^ k)).map (fun x => b.val * 256 ^ k + x) := by
      intro b
      rw [← ih, List.map_map, List.map_map]
      apply List.map_congr_left
      intro t ht
      simp only [Function.comp_apply]
      rw [ticketValue_cons, length_of_mem_allTickets k t ht]
    simp only [allTickets, List.map_flatMap]
    have hfun : (fun b : Byte => ((allTickets k).map (fun t => b :: t)).map ticketValue)
        = (fun b : Byte => (List.range (256 ^ k)).map (fun x => b.val * 256 ^ k + x)) :=
      funext hinner
    rw [hfun]
    have hval : (List.finRange 256).flatMap
          (fun b : Byte => (List.range (256 ^ k)).map (fun x => b.val * 256 ^ k + x))
        = ((List.finRange 256).map Fin.val).flatMap
          (fun b : Nat => (List.range (256 ^ k)).map (fun x => b * 256 ^ k + x)) := by
      rw [List.flatMap_map]
    rw [hval, List.map_coe_finRange, range_mul_flatMap, pow_succ, Nat.mul_comm]

theorem nodup_allTickets (n : Nat) : (allTickets n).Nodup := by
  apply List.Nodup.of_map ticketValue
  rw [map_ticketValue_allTickets]
  exact List.nodup_range _

theorem length_filter_lt_range (N K : Nat) (h : K ≤ N) :
    ((List.range N).filter (fun T => decide (T < K))).length = K := by
  induction N with
  | zero =>
    have : K = 0 := Nat.le_zero.mp h
    subst this
    rfl
  | succ M ih =>
    rw [List.range_succ, List.filter_append, List.length_append]
    rcases Nat.lt_or_ge M K with hlt | hge
    · have hK : K = M + 1 := by omega
      have hall : (List.range M).filter (fun T => decide (T < K)) = List.range M := by
        apply List.filter_eq_self.mpr
        intro T hT
        have := List.mem_range.mp hT
        simp only [decide_eq_true_eq]
        omega
      rw [hall]
      simp [hlt, hK]
    · rw [ih hge]
      simp [Nat.not_lt.mpr hge]

theorem mul_lt_iff_lt_ceil (T X total : Nat) (hpos : 0 < total) :
    T * total < X ↔ T < (X + total - 1) / total := by
  rw [Nat.lt_iff_add_one_le (n := (X + total - 1) / total), Nat.le_div_iff_mul_le hpos,
    Nat.add_mul]
  generalize T * total = y
  omega

/-- The number of winning tickets of `n` bytes is `minerPower * 256 ^ n / totalPower`, rounded
up. -/
theorem winningCount_eq (ptv : PowerTableView) (n : Nat) (miner : Address)
    (totalPower minerPower : Nat) (hpos : 0 < totalPower) (hle : minerPower ≤ totalPower)
    (hT : ptv.Total = (totalPower, none)) (hM : ptv.Miner miner = (minerPower, none)) :
    winningCount ptv n miner = (minerPower * 256 ^ n + totalPower - 1) / totalPower := by
  have hK : (minerPower * 256 ^ n + totalPower - 1) / totalPower ≤ 256 ^ n := by
    have hlt : minerPower * 256 ^ n + totalPower - 1 < (256 ^ n + 1) * totalPower := by
      have h1 : minerPower * 256 ^ n ≤ totalPower * 256 ^ n :=
        Nat.mul_le_mul_right _ hle
      have h2 : (256 ^ n + 1) * totalPower = totalPower * 256 ^ n + totalPower := by ring
      omega
    have := (Nat.div_lt_iff_lt_mul hpos).mpr hlt
    omega
  unfold winningCount
  have hfilter : (allTickets n).filter (fun t => (IsWinningTicket ptv t miner).1)
      = (allTickets n).filter
          ((fun T => decide (T < (minerPower * 256 ^ n + totalPower - 1) / totalPower))
            ∘ ticketValue) := by
    apply List.filter_congr
    intro t ht
    rw [IsWinningTicket_of_powers ptv t miner totalPower minerPower hT hM,
      length_of_mem_allTickets n t ht]
    simp only [Function.comp_apply]
    exact decide_eq_decide.mpr (mul_lt_iff_lt_ceil _ _ _ hpos)
  rw [hfilter, ← List.length_map (f := ticketValue), ← List.filter_map,
    map_ticketValue_allTickets, length_filter_lt_range _ _ hK]

/-- C21, as stated, fails: with power 1 of 3 there are 86 winning one-byte tickets, and
`86 * 3 = 258` is not `1 * 256`; with the test's power 1 of 5 and 32-byte tickets the count
times 5 is not `256 ^ 32` either. -/
theorem winningCount_not_exact :
    (0 < 3 ∧ 1 ≤ 3 ∧ winningCount (NewTestPowerTableView 1 3) 1 7 = 86 ∧
      winningCount (NewTestPowerTableView 1 3) 1 7 * 3 ≠ 1 * 256 ^ 1) ∧
    (0 < 5 ∧ 1 ≤ 5 ∧ winningCount (NewTestPowerTableView 1 5) 32 7 * 5 ≠ 1 * 256 ^ 32) := by
  rw [winningCount_eq (NewTestPowerTableView 1 3) 1 7 3 1 (by decide) (by decide) rfl rfl,
    winningCount_eq (NewTestPowerTableView 1 5) 32 7 5 1 (by decide) (by decide) rfl rfl]
  decide

/-- C21 (amended): for every ticket length `n` and all powers with `0 < totalPower` and
`minerPower ≤ totalPower`, the number of `n`-byte tickets for which `IsWinningTicket` is true,
multiplied by `totalPower`, is at least `minerPower * 256 ^ n` and less than
`minerPower * 256 ^ n + totalPower`; it equals `minerPower * 256 ^ n` exactly when
`totalPower` divides `minerPower * 256 ^ n`. -/
theorem winningCount_bounds (ptv : PowerTableView) (n : Nat) (miner : Address)
    (totalPower minerPower : Nat) (hpos : 0 < totalPower) (hle : minerPower ≤ totalPower)
    (hT : ptv.Total = (totalPower, none)) (hM : ptv.Miner miner = (minerPower, none)) :
    minerPower * 256 ^ n ≤ winningCount ptv n miner * totalPower ∧
    winningCount ptv n miner * totalPower < minerPower * 256 ^ n + totalPower ∧
    (winningCount ptv n miner * totalPower = minerPower * 256 ^ n ↔
      totalPower ∣ minerPower * 256 ^ n) := by
  rw [winningCount_eq ptv n miner totalPower minerPower hpos hle hT hM]
  generalize minerPower * 256 ^ n = X
  have hdm := Nat.div_add_mod (X + totalPower - 1) totalPower
  have hmod := Nat.mod_lt (X + totalPower - 1) hpos
  have hcomm : (X + totalPower - 1) / totalPower * totalPower
      = totalPower * ((X + totalPower - 1) / totalPower) := Nat.mul_comm _ _
  have hlow : X ≤ (X + totalPower - 1) / totalPower * totalPower := by
    rw [hcomm]
    generalize totalPower * ((X + totalPower - 1) / totalPower) = y at hdm
    omega
  have hhigh : (X + totalPower - 1) / totalPower * totalPower < X + totalPower := by
    rw [hcomm]
    generalize totalPower * ((X + totalPower - 1) / totalPower) = y at hdm
    omega
  refine ⟨hlow, hhigh, ?_, ?_⟩
  · intro h
    exact ⟨(X + totalPower - 1) / totalPower, by rw [Nat.mul_comm totalPower _]; exact h.symm⟩
  · rintro ⟨c, rfl⟩
    have h1 : c ≤ (totalPower * c + totalPower - 1) / totalPower := by
      apply Nat.le_of_mul_le_mul_left _ hpos
      rw [Nat.mul_comm totalPower ((totalPower * c + totalPower - 1) / totalPower)]
      exact hlow
    have h2 : (totalPower * c + totalPower - 1) / totalPower < c + 1 := by
      apply Nat.lt_of_mul_lt_mul_left (a := totalPower)
      rw [Nat.mul_comm totalPower ((totalPower * c + totalPower - 1) / totalPower),
        Nat.mul_add, Nat.mul_one]
      exact hhigh
    have h3 : (totalPower * c + totalPower - 1) / totalPower = c := by omega
    rw [h3, Nat.mul_comm]

/-- Witness for amended C21: the test's power 1 of 5 with 32-byte tickets. -/
theorem winningCount_bounds_witness :
    1 * 256 ^ 32 ≤ winningCount (NewTestPowerTableView 1 5) 32 7 * 5 ∧
    winningCount (NewTestPowerTableView 1 5) 32 7 * 5 < 1 * 256 ^ 32 + 5 ∧
    (winningCount (NewTestPowerTableView 1 5) 32 7 * 5 = 1 * 256 ^ 32 ↔ 5 ∣ 1 * 256 ^ 32) :=
  winningCount_bounds (NewTestPowerTableView 1 5) 32 7 5 1 (by decide) (by decide) rfl rfl

end consensus

/-! ## Facts about the miner actor -/

namespace miner

theorem WithStorage_storage_cases {α : Type} (stored : Storage) (f : Storage → Run α) :
    (WithStorage stored f).1 = stored ∨
      (∃ a, (f stored).result = .ok a ∧ (WithStorage stored f).1 = (f stored).mstore) := by
  unfold WithStorage
  cases h : (f stored).result with
  | ok a => right; exact ⟨a, rfl, by simp only [h]⟩
  | error e => left; simp only [h]
  | panic => left; simp only [h]

theorem returnSectorID_storage (r : Storage × List Message × Exec Value) :
    (returnSectorID r).storage = r.1 := by
  obtain ⟨st, sent, res⟩ := r
  cases res with
  | ok out => cases out <;> rfl
  | error e => rfl
  | panic => rfl

theorem upsertDealsToSector_frame (mstore : Storage) (sectorID : Int) (deals : List Nat) :
    (upsertDealsToSector mstore sectorID deals).1.LockedStorage = mstore.LockedStorage ∧
    (upsertDealsToSector mstore sectorID deals).1.PledgeBytes = mstore.PledgeBytes := by
  unfold upsertDealsToSector
  by_cases h : sectorID = -1 <;> simp only [h, if_true, if_false] <;>
    split <;> try (constructor <;> rfl)
  all_goals (split <;> try (constructor <;> rfl))
  all_goals (split <;> constructor <;> rfl)

theorem index_length_append {α : Type} (xs : List α) (x : α) :
    index (xs ++ [x]) (xs.length : Int) = some x := by
  unfold index
  have h1 : (0 : Int) ≤ (xs.length : Int) := Int.natCast_nonneg _
  have h2 : (xs.length : Int) < ((xs ++ [x]).length : Int) := by simp
  rw [if_pos ⟨h1, h2⟩]
  simp

theorem index_natCast {α : Type} (xs : List α) (i : Nat) (x : α) (h : xs.get? i = some x) :
    index xs (i : Int) = some x := by
  unfold index
  have hlt : i < xs.length := by
    rcases Nat.lt_or_ge i xs.length with hl | hl
    · exact hl
    · rw [List.get?_eq_none.mpr hl] at h; cases h
  have h2 : (i : Int) < (xs.length : Int) := by exact_mod_cast hlt
  rw [if_pos ⟨Int.natCast_nonneg _, h2⟩]
  simpa using h

theorem index_neg {α : Type} (xs : List α) (i : Int) (h : i < 0) : index xs i = none := by
  unfold index
  rw [if_neg]
  omega

theorem set_length_append {α : Type} (xs : List α) (x y : α) :
    (xs ++ [x]).set xs.length y = xs ++ [y] := by
  induction xs with
  | nil => rfl
  | cons a as ih => simp [List.set, ih]

/-- The new-sector sentinel: a fresh sector is appended and receives the deals. -/
theorem upsertDealsToSector_new (mstore : Storage) (deals : List Nat) :
    upsertDealsToSector mstore (-1) deals =
      ({ mstore with Sectors := mstore.Sectors ++ [{ CommR := none, Deals := deals }] },
       .ok (mstore.Sectors.length : Int)) := by
  unfold upsertDealsToSector
  simp only [if_true]
  have hlt : ¬ ((mstore.Sectors.length : Int) ≥ ((mstore.Sectors ++ [Sector.new]).length : Int)) := by
    simp
  rw [if_neg hlt, index_length_append]
  simp [Sector.new, set_length_append]

/-- An explicit id at or beyond the number of sectors is refused. -/
theorem upsertDealsToSector_out_of_range (mstore : Storage) (sectorID : Int) (deals : List Nat)
    (hne : sectorID ≠ -1) (hge : (mstore.Sectors.length : Int) ≤ sectorID) :
    upsertDealsToSector mstore sectorID deals =
      (mstore, .error (.revert "sectorID out of range")) := by
  unfold upsertDealsToSector
  simp only [if_neg hne]
  rw [if_pos hge]

/-- A negative explicit id passes the range check and indexes the sector list below 0. -/
theorem upsertDealsToSector_negative (mstore : Storage) (sectorID : Int) (deals : List Nat)
    (hlt : sectorID < -1) :
    upsertDealsToSector mstore sectorID deals = (mstore, .panic) := by
  have hne : sectorID ≠ -1 := by omega
  unfold upsertDealsToSector
  simp only [if_neg hne]
  have h : ¬ (sectorID ≥ (mstore.Sectors.length : Int)) := by
    have := Int.natCast_nonneg mstore.Sectors.length
    omega
  rw [if_neg h, index_neg _ _ (by omega)]

/-- An existing uncommitted sector receives the deals after those it already holds. -/
theorem upsertDealsToSector_existing (mstore : Storage) (i : Nat) (sector : Sector)
    (deals : List Nat) (hget : mstore.Sectors.get? i = some sector)
    (hc : sector.CommR = none) :
    upsertDealsToSector mstore (i : Int) deals =
      ({ mstore with
          Sectors := mstore.Sectors.set i { sector with Deals := sector.Deals ++ deals } },
       .ok (i : Int)) := by
  have hne : (i : Int) ≠ -1 := by
    have := Int.natCast_nonneg i
    omega
  have hlt : i < mstore.Sectors.length := by
    rcases Nat.lt_or_ge i mstore.Sectors.length with hl | hl
    · exact hl
    · rw [List.get?_eq_none.mpr hl] at hget; cases hget
  have h : ¬ ((i : Int) ≥ (mstore.Sectors.length : Int)) := by
    have : (i : Int) < (mstore.Sectors.length : Int) := by exact_mod_cast hlt
    omega
  unfold upsertDealsToSector
  simp only [if_neg hne]
  rw [if_neg h, index_natCast _ _ _ hget]
  simp [hc]

/-- An existing committed sector refuses further deals. -/
theorem upsertDealsToSector_committed (mstore : Storage) (i : Nat) (sector : Sector)
    (deals : List Nat) (hget : mstore.Sectors.get? i = some sector)
    (hc : sector.CommR ≠ none) :
    upsertDealsToSector mstore (i : Int) deals =
      (mstore, .error (.revert "can't add deals to committed sector")) := by
  have hne : (i : Int) ≠ -1 := by
    have := Int.natCast_nonneg i
    omega
  have hlt : i < mstore.Sectors.length := by
    rcases Nat.lt_or_ge i mstore.Sectors.length with hl | hl
    · exact hl
    · rw [List.get?_eq_none.mpr hl] at hget; cases hget
  have h : ¬ ((i : Int) ≥ (mstore.Sectors.length : Int)) := by
    have : (i : Int) < (mstore.Sectors.length : Int) := by exact_mod_cast hlt
    omega
  unfold upsertDealsToSector
  simp only [if_neg hne]
  rw [if_neg h, index_natCast _ _ _ hget]
  simp [hc]

theorem AddAsk_insufficient_pledge (ctx : VMContext) (stored : Storage) (price : TokenAmount)
    (size : BytesAmount) (hOwner : ctx.From = stored.Owner) :
    ((AddAsk ctx stored price size).ret.err = some ErrInsufficientPledge ↔
        stored.LockedStorage + size > stored.PledgeBytes) ∧
    (stored.LockedStorage + size = stored.PledgeBytes →
        (AddAsk ctx stored price size).sent = [Message.addAsk price size]) := by
  unfold AddAsk WithStorage addAskBody
  simp only [hOwner, ne_eq, not_true_eq_false, if_false]
  by_cases hgt : stored.LockedStorage + size > stored.PledgeBytes
  · simp only [hgt, if_true, Return.err, true_iff, iff_true]
    refine ⟨trivial, ?_⟩
    intro h
    exact absurd h (Nat.ne_of_gt hgt)
  · simp only [hgt, if_false, iff_false]
    cases hs : (ctx.Send (Message.addAsk price size)).err with
    | some e => simp [Return.err, ErrInsufficientPledge]
    | none =>
      cases hd : ctx.DeserializeInteger (ctx.Send (Message.addAsk price size)).out with
      | error e => simp [Return.err, ErrInsufficientPledge]
      | ok askID =>
        by_cases hr : (ctx.Send (Message.addAsk price size)).ret = 0
        · simp [hr, Return.err]
        · simp [hr, Return.err, ErrInsufficientPledge]

theorem commitResolved_frame (ctx : VMContext) (commR : Option (List Byte)) (mstore : Storage)
    (sectorID : Int) :
    (commitResolved ctx commR mstore sectorID).mstore.LockedStorage = mstore.LockedStorage ∧
    (commitResolved ctx commR mstore sectorID).mstore.PledgeBytes = mstore.PledgeBytes := by
  unfold commitResolved
  split
  · exact ⟨rfl, rfl⟩
  · split
    · exact ⟨rfl, rfl⟩
    · dsimp only
      split
      · exact ⟨rfl, rfl⟩
      · split <;> exact ⟨rfl, rfl⟩

theorem commitSectorBody_frame (ctx : VMContext) (sectorID : Int) (commR : Option (List Byte))
    (deals : List Nat) (mstore : Storage) :
    (commitSectorBody ctx sectorID commR deals mstore).mstore.LockedStorage
        = mstore.LockedStorage ∧
    (commitSectorBody ctx sectorID commR deals mstore).mstore.PledgeBytes
        = mstore.PledgeBytes := by
  unfold commitSectorBody
  have hu := upsertDealsToSector_frame mstore sectorID deals
  split
  · split
    · rename_i m e heq
      rw [heq] at hu
      exact hu
    · rename_i m heq
      rw [heq] at hu
      exact hu
    · rename_i m sid heq
      rw [heq] at hu
      have hc := commitResolved_frame ctx commR m sid
      exact ⟨hc.1.trans hu.1, hc.2.trans hu.2⟩
  · exact commitResolved_frame ctx commR mstore sectorID

theorem addDealsToSectorBody_frame (sectorID : Int) (deals : List Nat) (mstore : Storage) :
    (addDealsToSectorBody sectorID deals mstore).mstore.LockedStorage = mstore.LockedStorage ∧
    (addDealsToSectorBody sectorID deals mstore).mstore.PledgeBytes = mstore.PledgeBytes := by
  unfold addDealsToSectorBody
  have hu := upsertDealsToSector_frame mstore sectorID deals
  split <;> (rename_i heq; rw [heq] at hu; exact hu)

theorem addAskBody_locked_le (ctx : VMContext) (price : TokenAmount) (size : BytesAmount)
    (mstore : Storage) (h : mstore.LockedStorage ≤ mstore.PledgeBytes) :
    (addAskBody ctx price size mstore).mstore.LockedStorage
      ≤ (addAskBody ctx price size mstore).mstore.PledgeBytes := by
  unfold addAskBody
  split
  · exact h
  · dsimp only
    split
    · exact h
    · rename_i hgt
      have hle : mstore.LockedStorage + size ≤ mstore.PledgeBytes := Nat.le_of_not_gt hgt
      split
      · exact hle
      · split
        · exact hle
        · split <;> exact hle

/-- Every call keeps the locked capacity within the pledge. -/
theorem Call_run_locked_le (stored : Storage) (c : Call)
    (h : stored.LockedStorage ≤ stored.PledgeBytes) :
    (c.run stored).storage.LockedStorage ≤ (c.run stored).storage.PledgeBytes := by
  cases c with
  | addAsk ctx price size =>
    have hs : (AddAsk ctx stored price size).storage
        = (WithStorage stored (addAskBody ctx price size)).1 := by
      unfold AddAsk
      split
      · rename_i heq; rw [heq]
      · rename_i heq; rw [heq]
      · rename_i heq; rw [heq]; split <;> rfl
    show (AddAsk ctx stored price size).storage.LockedStorage
      ≤ (AddAsk ctx stored price size).storage.PledgeBytes
    rw [hs]
    rcases WithStorage_storage_cases stored (addAskBody ctx price size) with h1 | ⟨_, _, h1⟩
    · rw [h1]; exact h
    · rw [h1]; exact addAskBody_locked_le ctx price size stored h
  | addDealsToSector sectorID deals =>
    show (AddDealsToSector stored sectorID deals).storage.LockedStorage
      ≤ (AddDealsToSector stored sectorID deals).storage.PledgeBytes
    unfold AddDealsToSector
    rw [returnSectorID_storage]
    rcases WithStorage_storage_cases stored (addDealsToSectorBody sectorID deals)
      with h1 | ⟨_, _, h1⟩
    · rw [h1]; exact h
    · rw [h1]
      have hf := addDealsToSectorBody_frame sectorID deals stored
      rw [hf.1, hf.2]; exact h
  | commitSector ctx sectorID commR deals =>
    show (CommitSector ctx stored sectorID commR deals).storage.LockedStorage
      ≤ (CommitSector ctx stored sectorID commR deals).storage.PledgeBytes
    unfold CommitSector
    rw [returnSectorID_storage]
    rcases WithStorage_storage_cases stored (commitSectorBody ctx sectorID commR deals)
      with h1 | ⟨_, _, h1⟩
    · rw [h1]; exact h
    · rw [h1]
      have hf := commitSectorBody_frame ctx sectorID commR deals stored
      rw [hf.1, hf.2]; exact h

theorem runCalls_locked_le (calls : List Call) (stored : Storage)
    (h : stored.LockedStorage ≤ stored.PledgeBytes) :
    (runCalls stored calls).LockedStorage ≤ (runCalls stored calls).PledgeBytes := by
  induction calls generalizing stored with
  | nil => exact h
  | cons c cs ih =>
    show (runCalls (c.run stored).storage cs).LockedStorage
      ≤ (runCalls (c.run stored).storage cs).PledgeBytes
    exact ih _ (Call_run_locked_le stored c h)

/-- C5: starting from the ledger `NewActor` builds (`LockedStorage = 0`), after any sequence
of `AddAsk`, `AddDealsToSector` and `CommitSector` calls, successful or failed, the persisted
ledger satisfies `LockedStorage ≤ PledgeBytes`. -/
theorem locked_le_pledge (owner : Address) (pledge : BytesAmount) (coll : TokenAmount)
    (calls : List Call) :
    (runCalls (NewActor owner pledge coll) calls).LockedStorage
      ≤ (runCalls (NewActor owner pledge coll) calls).PledgeBytes :=
  runCalls_locked_le calls (NewActor owner pledge coll) (Nat.zero_le pledge)

/-- Witness for C4: the owner asks for 6 bytes with 4 of 10 locked, so the total equals the
pledge. -/
theorem AddAsk_insufficient_pledge_witness :
    ((AddAsk ownerCtx exampleLedger 2 6).ret.err = some ErrInsufficientPledge ↔
        exampleLedger.LockedStorage + 6 > exampleLedger.PledgeBytes) ∧
    (exampleLedger.LockedStorage + 6 = exampleLedger.PledgeBytes →
        (AddAsk ownerCtx exampleLedger 2 6).sent = [Message.addAsk 2 6]) :=
  AddAsk_insufficient_pledge ownerCtx exampleLedger 2 6 rfl

theorem commitResolved_success (ctx : VMContext) (commR : Option (List Byte))
    (mstore : Storage) (sectorID : Int) (sector : Sector) (out : List Byte)
    (hidx : index mstore.Sectors sectorID = some sector) (hc : sector.CommR = none)
    (hsend : ctx.Send (Message.commitDeals sector.Deals) = { out := out, ret := 0, err := none }) :
    commitResolved ctx commR mstore sectorID =
      { mstore :=
          { mstore with
            Sectors := mstore.Sectors.set sectorID.toNat { sector with CommR := commR }
            Power := mstore.Power + NewBytesAmountFromBytes out },
        sent := [Message.commitDeals sector.Deals], result := .ok Value.nil } := by
  unfold commitResolved
  rw [hidx]
  simp [hc, hsend]

theorem commitResolved_result (ctx : VMContext) (commR : Option (List Byte))
    (mstore : Storage) (sectorID : Int) (v : Value)
    (h : (commitResolved ctx commR mstore sectorID).result = .ok v) : v = Value.nil := by
  unfold commitResolved at h
  split at h
  · cases h
  · split at h
    · cases h
    · dsimp only at h
      split at h
      · cases h
      · split at h
        · cases h
        · cases h; rfl

theorem commitSectorBody_result (ctx : VMContext) (sectorID : Int)
    (commR : Option (List Byte)) (deals : List Nat) (mstore : Storage) (v : Value)
    (h : (commitSectorBody ctx sectorID commR deals mstore).result = .ok v) :
    v = Value.nil := by
  unfold commitSectorBody at h
  split at h
  · split at h
    · cases h
    · cases h
    · exact commitResolved_result _ _ _ _ _ h
  · exact commitResolved_result _ _ _ _ _ h

/-- Whatever its input, `CommitSector` ends in a panic or returns a nil id with exit code 1
and an error. -/
theorem CommitSector_ret (ctx : VMContext) (stored : Storage) (sectorID : Int)
    (commR : Option (List Byte)) (deals : List Nat) :
    (CommitSector ctx stored sectorID commR deals).ret = .panicked ∨
      ∃ e, (CommitSector ctx stored sectorID commR deals).ret = .returned none 1 (some e) := by
  unfold CommitSector WithStorage
  cases h : (commitSectorBody ctx sectorID commR deals stored).result with
  | ok v =>
    have hv := commitSectorBody_result _ _ _ _ _ _ h
    subst hv
    right
    exact ⟨.revert "expected an int64", by simp only [h, returnSectorID]⟩
  | error e => right; exact ⟨e, by simp only [h, returnSectorID]⟩
  | panic => left; simp only [h, returnSectorID]

/-- C6 fails for `CommitSector`: on the example ledger, committing sector 0 with a market
that accepts, the call returns exit code 1 with the error "expected an int64", yet the
persisted ledger carries the proof and the added power, so it differs from the ledger before
the call. -/
theorem CommitSector_error_after_persist :
    CommitSector ownerCtx exampleLedger 0 (some [1]) [] =
      { storage :=
          { Owner := 1, PledgeBytes := 10, Collateral := 0,
            Sectors := [{ CommR := some [1], Deals := [7] }], LockedStorage := 4, Power := 12 },
        sent := [Message.commitDeals [7]],
        ret := .returned none 1 (some (.revert "expected an int64")) } ∧
    (CommitSector ownerCtx exampleLedger 0 (some [1]) []).storage ≠ exampleLedger := by
  constructor
  · rfl
  · decide

/-- C7 fails: with an uncommitted target sector and a market that accepts with exit code 0,
`CommitSector` returns no sector id, exit code 1 and the error "expected an int64"; and for
every input it either panics or returns a nil id with exit code 1 and an error. -/
theorem CommitSector_never_returns_id :
    (index exampleLedger.Sectors 0 = some { CommR := none, Deals := [7] } ∧
      ownerCtx.Send (Message.commitDeals [7]) = { out := [9], ret := 0, err := none } ∧
      (CommitSector ownerCtx exampleLedger 0 (some [1]) []).ret
        = .returned none 1 (some (.revert "expected an int64"))) ∧
    (∀ (ctx : VMContext) (stored : Storage) (sectorID : Int) (commR : Option (List Byte))
        (deals : List Nat) (id : Int),
        (CommitSector ctx stored sectorID commR deals).ret ≠ .returned (some id) 0 none) := by
  refine ⟨⟨rfl, rfl, rfl⟩, ?_⟩
  intro ctx stored sectorID commR deals id h
  rcases CommitSector_ret ctx stored sectorID commR deals with hp | ⟨e, he⟩
  · rw [hp] at h; cases h
  · rw [he] at h; cases h

theorem CommitSector_of_body_ok (ctx : VMContext) (stored : Storage) (sectorID : Int)
    (commR : Option (List Byte)) (deals : List Nat) (m : Storage) (sent : List Message)
    (h : commitSectorBody ctx sectorID commR deals stored
          = { mstore := m, sent := sent, result := .ok Value.nil }) :
    CommitSector ctx stored sectorID commR deals =
      { storage := m, sent := sent,
        ret := .returned none 1 (some (.revert "expected an int64")) } := by
  unfold CommitSector WithStorage
  rw [h]
  rfl

theorem get?_lt_length {α : Type} (xs : List α) (i : Nat) (x : α)
    (h : xs.get? i = some x) : i < xs.length := by
  rcases Nat.lt_or_ge i xs.length with hl | hl
  · exact hl
  · rw [List.get?_eq_none.mpr hl] at h; cases h

theorem commitSectorBody_existing (ctx : VMContext) (stored : Storage) (i : Nat)
    (sector : Sector) (commR : Option (List Byte)) (deals : List Nat) (out : List Byte)
    (hget : stored.Sectors.get? i = some sector) (hc : sector.CommR = none)
    (hsend : ctx.Send (Message.commitDeals (sector.Deals ++ deals))
      = { out := out, ret := 0, err := none }) :
    commitSectorBody ctx (i : Int) commR deals stored =
      { mstore :=
          { stored with
            Sectors := stored.Sectors.set i { CommR := commR, Deals := sector.Deals ++ deals }
            Power := stored.Power + NewBytesAmountFromBytes out },
        sent := [Message.commitDeals (sector.Deals ++ deals)], result := .ok Value.nil } := by
  have hlt := get?_lt_length _ _ _ hget
  unfold commitSectorBody
  by_cases hd : deals.length ≠ 0
  · rw [if_pos hd, upsertDealsToSector_existing stored i sector deals hget hc]
    dsimp only
    have hidx : index (stored.Sectors.set i { sector with Deals := sector.Deals ++ deals })
        (i : Int) = some { sector with Deals := sector.Deals ++ deals } := by
      apply index_natCast
      simp [List.getElem?_set, hlt]
    rw [commitResolved_success ctx commR _ (i : Int)
      { sector with Deals := sector.Deals ++ deals } out hidx hc hsend]
    simp [hc]
  · rw [if_neg hd]
    have hnil : deals = [] := by
      cases deals with
      | nil => rfl
      | cons a as => simp at hd
    subst hnil
    rw [List.append_nil] at hsend ⊢
    rw [commitResolved_success ctx commR stored (i : Int) sector out
      (index_natCast _ _ _ hget) hc hsend]
    simp

theorem commitSectorBody_new (ctx : VMContext) (stored : Storage)
    (commR : Option (List Byte)) (deals : List Nat) (out : List Byte) (hd : deals ≠ [])
    (hsend : ctx.Send (Message.commitDeals deals) = { out := out, ret := 0, err := none }) :
    commitSectorBody ctx (-1) commR deals stored =
      { mstore :=
          { stored with
            Sectors := stored.Sectors ++ [{ CommR := commR, Deals := deals }]
            Power := stored.Power + NewBytesAmountFromBytes out },
        sent := [Message.commitDeals deals], result := .ok Value.nil } := by
  have hlen : deals.length ≠ 0 := by
    cases deals with
    | nil => exact absurd rfl hd
    | cons a as => simp
  unfold commitSectorBody
  rw [if_pos hlen, upsertDealsToSector_new]
  dsimp only
  rw [commitResolved_success ctx commR _ (stored.Sectors.length : Int)
    { CommR := none, Deals := deals } out (index_length_append _ _) rfl hsend]
  simp [set_length_append]

/-- C8: when the target sector is uncommitted and `commitDeals` succeeds with exit code 0
and output `out`, `CommitSector` sends to the storage market exactly one message,
`commitDeals` with the sector's accumulated deals (those admitted before followed by those of
this call), and the ledger it persists has `commR` attached to that sector, `Power` raised by
the amount read from `out`, and every other sector and field as before.  The first part is
an existing sector `i`, the second the sector newly allocated for the sentinel `-1` with a
non-empty deal list. -/
theorem CommitSector_commits :
    (∀ (ctx : VMContext) (stored : Storage) (i : Nat) (sector : Sector)
        (commR : Option (List Byte)) (deals : List Nat) (out : List Byte),
        stored.Sectors.get? i = some sector → sector.CommR = none →
        ctx.Send (Message.commitDeals (sector.Deals ++ deals))
          = { out := out, ret := 0, err := none } →
        (CommitSector ctx stored (i : Int) commR deals).sent
          = [Message.commitDeals (sector.Deals ++ deals)] ∧
        (CommitSector ctx stored (i : Int) commR deals).storage =
          { stored with
            Sectors := stored.Sectors.set i { CommR := commR, Deals := sector.Deals ++ deals }
            Power := stored.Power + NewBytesAmountFromBytes out }) ∧
    (∀ (ctx : VMContext) (stored : Storage) (commR : Option (List Byte)) (deals : List Nat)
        (out : List Byte),
        deals ≠ [] →
        ctx.Send (Message.commitDeals deals) = { out := out, ret := 0, err := none } →
        (CommitSector ctx stored (-1) commR deals).sent = [Message.commitDeals deals] ∧
        (CommitSector ctx stored (-1) commR deals).storage =
          { stored with
            Sectors := stored.Sectors ++ [{ CommR := commR, Deals := deals }]
            Power := stored.Power + NewBytesAmountFromBytes out }) := by
  refine ⟨?_, ?_⟩
  · intro ctx stored i sector commR deals out hget hc hsend
    rw [CommitSector_of_body_ok ctx stored (i : Int) commR deals _ _
      (commitSectorBody_existing ctx stored i sector commR deals out hget hc hsend)]
    exact ⟨rfl, rfl⟩
  · intro ctx stored commR deals out hd hsend
    rw [CommitSector_of_body_ok ctx stored (-1) commR deals _ _
      (commitSectorBody_new ctx stored commR deals out hd hsend)]
    exact ⟨rfl, rfl⟩

/-- Witness for C8: sector 0 of the example ledger, holding deal 7, is committed with the
further deal 8; the market answers `[9]`, so `Power` goes from 3 to 12. -/
theorem CommitSector_commits_witness :
    (CommitSector ownerCtx exampleLedger 0 (some [1]) [8]).sent
      = [Message.commitDeals [7, 8]] ∧
    (CommitSector ownerCtx exampleLedger 0 (some [1]) [8]).storage =
      { exampleLedger with
        Sectors := [{ CommR := some [1], Deals := [7, 8] }]
        Power := 12 } :=
  CommitSector_commits.1 ownerCtx exampleLedger 0 { CommR := none, Deals := [7] }
    (some [1]) [8] [9] rfl rfl rfl

theorem AddDealsToSector_eq (stored : Storage) (sectorID : Int) (deals : List Nat) :
    AddDealsToSector stored sectorID deals =
      match upsertDealsToSector stored sectorID deals with
      | (m, .ok sid) => { storage := m, sent := [], ret := .returned (some sid) 0 none }
      | (_, .error e) => { storage := stored, sent := [], ret := .returned none 1 (some e) }
      | (_, .panic) => { storage := stored, sent := [], ret := .panicked } := by
  unfold AddDealsToSector WithStorage addDealsToSectorBody
  rcases upsertDealsToSector stored sectorID deals with ⟨m, r | e | _⟩ <;> rfl

/-- C9: `AddDealsToSector` with the new-sector sentinel `-1` on a ledger holding `n` sectors
succeeds and returns `n` with exit code 0; the persisted ledger is the old one with one more
sector at the end, uncommitted and holding exactly the given deals; nothing is sent.  So the
first such call on a fresh ledger returns 0 and the next returns 1. -/
theorem AddDealsToSector_new :
    (∀ (stored : Storage) (deals : List Nat),
        AddDealsToSector stored (-1) deals =
          { storage :=
              { stored with Sectors := stored.Sectors ++ [{ CommR := none, Deals := deals }] },
            sent := [],
            ret := .returned (some (stored.Sectors.length : Int)) 0 none }) ∧
    (∀ (owner : Address) (pledge : BytesAmount) (coll : TokenAmount) (d1 d2 : List Nat),
        (AddDealsToSector (NewActor owner pledge coll) (-1) d1).ret
          = .returned (some 0) 0 none ∧
        (AddDealsToSector (AddDealsToSector (NewActor owner pledge coll) (-1) d1).storage
            (-1) d2).ret = .returned (some 1) 0 none) := by
  have h : ∀ (stored : Storage) (deals : List Nat),
      AddDealsToSector stored (-1) deals =
        { storage :=
            { stored with Sectors := stored.Sectors ++ [{ CommR := none, Deals := deals }] },
          sent := [],
          ret := .returned (some (stored.Sectors.length : Int)) 0 none } := by
    intro stored deals
    rw [AddDealsToSector_eq, upsertDealsToSector_new]
  refine ⟨h, ?_⟩
  intro owner pledge coll d1 d2
  rw [h, h]
  exact ⟨rfl, rfl⟩

/-- An explicit id at or beyond the number of sectors: `AddDealsToSector` fails with
"sectorID out of range" and leaves the ledger as it was. -/
theorem AddDealsToSector_out_of_range (stored : Storage) (sectorID : Int) (deals : List Nat)
    (hne : sectorID ≠ -1) (hge : (stored.Sectors.length : Int) ≤ sectorID) :
    AddDealsToSector stored sectorID deals =
      { storage := stored, sent := [],
        ret := .returned none 1 (some (.revert "sectorID out of range")) } := by
  rw [AddDealsToSector_eq, upsertDealsToSector_out_of_range stored sectorID deals hne hge]

/-- An explicit id below `-1`: `AddDealsToSector` panics on the index below 0. -/
theorem AddDealsToSector_negative (stored : Storage) (sectorID : Int) (deals : List Nat)
    (hlt : sectorID < -1) :
    AddDealsToSector stored sectorID deals =
      { storage := stored, sent := [], ret := .panicked } := by
  rw [AddDealsToSector_eq, upsertDealsToSector_negative stored sectorID deals hlt]

/-- C10 fails for negative ids: with sector id `-2` on the example ledger (one sector) the
range check `sectorID >= len(Sectors)` passes, `mstore.Sectors[-2]` is evaluated and the call
panics instead of returning "sectorID out of range"; an id at or beyond the number of
sectors (here 1) does get that error. -/
theorem AddDealsToSector_negative_id_panics :
    AddDealsToSector exampleLedger (-2) [5] =
      { storage := exampleLedger, sent := [], ret := .panicked } ∧
    AddDealsToSector exampleLedger 1 [5] =
      { storage := exampleLedger, sent := [],
        ret := .returned none 1 (some (.revert "sectorID out of range")) } := by
  constructor <;> rfl

/-- The part of C6 that holds for `AddAsk`: a call that returns an error leaves the
persisted ledger as it was. -/
theorem AddAsk_error_keeps_ledger (ctx : VMContext) (stored : Storage) (price : TokenAmount)
    (size : BytesAmount) (h : (AddAsk ctx stored price size).ret.err ≠ none) :
    (AddAsk ctx stored price size).storage = stored := by
  unfold AddAsk WithStorage addAskBody at h ⊢
  by_cases ho : ctx.From = stored.Owner
  · simp only [ho, ne_eq, not_true_eq_false, if_false] at h ⊢
    by_cases hgt : stored.LockedStorage + size > stored.PledgeBytes
    · simp only [hgt, if_true]
    · simp only [hgt, if_false] at h ⊢
      cases hs : (ctx.Send (Message.addAsk price size)).err with
      | some e => simp only [hs]
      | none =>
        simp only [hs] at h ⊢
        cases hd : ctx.DeserializeInteger (ctx.Send (Message.addAsk price size)).out with
        | error e => simp only [hd]
        | ok askID =>
          simp only [hd] at h ⊢
          by_cases hr : (ctx.Send (Message.addAsk price size)).ret = 0
          · simp [hr, Return.err] at h
          · simp [hr]
  · simp [ho]

/-- The part of C6 that holds for `AddDealsToSector`: a call that returns an error leaves
the persisted ledger as it was. -/
theorem AddDealsToSector_error_keeps_ledger (stored : Storage) (sectorID : Int)
    (deals : List Nat) (h : (AddDealsToSector stored sectorID deals).ret.err ≠ none) :
    (AddDealsToSector stored sectorID deals).storage = stored := by
  rw [AddDealsToSector_eq] at h ⊢
  generalize upsertDealsToSector stored sectorID deals = u at h ⊢
  rcases u with ⟨m, r | e | _⟩
  · exact absurd rfl h
  · rfl
  · rfl

theorem index_some {α : Type} (xs : List α) (j : Int) (x : α) (h : index xs j = some x) :
    xs.get? j.toNat = some x := by
  unfold index at h
  split at h
  · exact h
  · cases h

theorem set_keeps_committed (xs : List Sector) (j : Int) (target new : Sector)
    (hidx : index xs j = some target) (hc : target.CommR = none) (i : Nat) (sector : Sector)
    (hget : xs.get? i = some sector) (hcom : sector.CommR ≠ none) :
    (xs.set j.toNat new).get? i = some sector := by
  have hj := index_some _ _ _ hidx
  have hne : j.toNat ≠ i := by
    intro h
    rw [h, hget] at hj
    injection hj with hj
    subst hj
    exact hcom hc
  rw [List.get?_eq_getElem?] at hget ⊢
  rw [List.getElem?_set_ne hne]
  exact hget

theorem append_keeps {α : Type} (xs : List α) (x : α) (i : Nat) (y : α)
    (hget : xs.get? i = some y) : (xs ++ [x]).get? i = some y := by
  have hlt := get?_lt_length _ _ _ hget
  rw [List.get?_eq_getElem?] at hget ⊢
  rw [List.getElem?_append_left hlt]
  exact hget

/-- Apart from the sector list, `upsertDealsToSector` leaves the ledger as it was. -/
theorem upsertDealsToSector_fields (mstore : Storage) (sectorID : Int) (deals : List Nat) :
    (upsertDealsToSector mstore sectorID deals).1 =
      { mstore with Sectors := (upsertDealsToSector mstore sectorID deals).1.Sectors } := by
  unfold upsertDealsToSector
  by_cases h : sectorID = -1 <;> simp only [h, if_true, if_false] <;>
    split <;> try rfl
  all_goals (split <;> try rfl)
  all_goals (split <;> rfl)

/-- A committed sector keeps its index and content through `upsertDealsToSector`. -/
theorem upsertDealsToSector_frozen (mstore : Storage) (sectorID : Int) (deals : List Nat)
    (i : Nat) (sector : Sector) (hget : mstore.Sectors.get? i = some sector)
    (hcom : sector.CommR ≠ none) :
    (upsertDealsToSector mstore sectorID deals).1.Sectors.get? i = some sector := by
  by_cases h : sectorID = -1
  · subst h
    rw [upsertDealsToSector_new]
    exact append_keeps _ _ _ _ hget
  · unfold upsertDealsToSector
    simp only [if_neg h]
    split
    · exact hget
    · split
      · exact hget
      · rename_i target hidx
        split
        · exact hget
        · rename_i hc
          have hc2 : target.CommR = none := by
            cases hcr : target.CommR with
            | none => rfl
            | some c => rw [hcr] at hc; simp at hc
          exact set_keeps_committed _ _ _ _ hidx hc2 i sector hget hcom

/-- Apart from the sector list and the power, `commitResolved` leaves the ledger as it
was; the power does not decrease and committed sectors stay as they are. -/
theorem commitResolved_effect (ctx : VMContext) (commR : Option (List Byte))
    (mstore : Storage) (sectorID : Int) :
    (commitResolved ctx commR mstore sectorID).mstore =
      { mstore with
        Sectors := (commitResolved ctx commR mstore sectorID).mstore.Sectors
        Power := (commitResolved ctx commR mstore sectorID).mstore.Power } ∧
    mstore.Power ≤ (commitResolved ctx commR mstore sectorID).mstore.Power ∧
    ∀ (i : Nat) (sector : Sector), mstore.Sectors.get? i = some sector →
      sector.CommR ≠ none →
      (commitResolved ctx commR mstore sectorID).mstore.Sectors.get? i = some sector := by
  unfold commitResolved
  split
  · exact ⟨rfl, Nat.le_refl _, fun _ _ h _ => h⟩
  · rename_i target hidx
    split
    · exact ⟨rfl, Nat.le_refl _, fun _ _ h _ => h⟩
    · rename_i hc
      have hc2 : target.CommR = none := by
        cases hcr : target.CommR with
        | none => rfl
        | some c => rw [hcr] at hc; simp at hc
      dsimp only
      split
      · exact ⟨rfl, Nat.le_refl _, fun _ _ h _ => h⟩
      · split
        · exact ⟨rfl, Nat.le_refl _, fun _ _ h _ => h⟩
        · refine ⟨rfl, Nat.le_add_right _ _, ?_⟩
          intro i sector hget hcom
          exact set_keeps_committed _ _ _ _ hidx hc2 i sector hget hcom

/-- The effect of the closure of `CommitSector` on the in-memory ledger. -/
theorem commitSectorBody_effect (ctx : VMContext) (sectorID : Int)
    (commR : Option (List Byte)) (deals : List Nat) (mstore : Storage) :
    (commitSectorBody ctx sectorID commR deals mstore).mstore =
      { mstore with
        Sectors := (commitSectorBody ctx sectorID commR deals mstore).mstore.Sectors
        Power := (commitSectorBody ctx sectorID commR deals mstore).mstore.Power } ∧
    mstore.Power ≤ (commitSectorBody ctx sectorID commR deals mstore).mstore.Power ∧
    ∀ (i : Nat) (sector : Sector), mstore.Sectors.get? i = some sector →
      sector.CommR ≠ none →
      (commitSectorBody ctx sectorID commR deals mstore).mstore.Sectors.get? i
        = some sector := by
  have hu := upsertDealsToSector_fields mstore sectorID deals
  have hf := upsertDealsToSector_frozen mstore sectorID deals
  unfold commitSectorBody
  split
  · split
    · rename_i m e heq
      rw [heq] at hu hf
      dsimp only at hu hf ⊢
      refine ⟨?_, ?_, hf⟩
      · rw [hu]
      · rw [hu]
    · rename_i m heq
      rw [heq] at hu hf
      dsimp only at hu hf ⊢
      refine ⟨?_, ?_, hf⟩
      · rw [hu]
      · rw [hu]
    · rename_i m sid heq
      rw [heq] at hu hf
      dsimp only at hu hf
      obtain ⟨h1, h2, h3⟩ := commitResolved_effect ctx commR m sid
      refine ⟨?_, ?_, ?_⟩
      · rw [h1, hu]
      · have hp : m.Power = mstore.Power := by rw [hu]
        exact Nat.le_trans (Nat.le_of_eq hp.symm) h2
      · intro i sector hget hcom
        exact h3 i sector (hf i sector hget hcom) hcom
  · exact commitResolved_effect ctx commR mstore sectorID

theorem AddAsk_storage (ctx : VMContext) (stored : Storage) (price : TokenAmount)
    (size : BytesAmount) :
    (AddAsk ctx stored price size).storage
      = (WithStorage stored (addAskBody ctx price size)).1 := by
  unfold AddAsk
  split
  · rename_i heq; rw [heq]
  · rename_i heq; rw [heq]
  · rename_i heq; rw [heq]; split <;> rfl

/-- Apart from the locked storage, the closure of `AddAsk` leaves the ledger as it was. -/
theorem addAskBody_fields (ctx : VMContext) (price : TokenAmount) (size : BytesAmount)
    (mstore : Storage) :
    (addAskBody ctx price size mstore).mstore =
      { mstore with LockedStorage := (addAskBody ctx price size mstore).mstore.LockedStorage } := by
  unfold addAskBody
  split
  · rfl
  · dsimp only
    split
    · rfl
    · split
      · rfl
      · split
        · rfl
        · split <;> rfl

/-- What one call may do to the sector list and the power: committed sectors stay, the power
does not decrease. -/
theorem Call_run_effect (stored : Storage) (c : Call) :
    stored.Power ≤ (c.run stored).storage.Power ∧
    ∀ (i : Nat) (sector : Sector), stored.Sectors.get? i = some sector →
      sector.CommR ≠ none → (c.run stored).storage.Sectors.get? i = some sector := by
  cases c with
  | addAsk ctx price size =>
    show stored.Power ≤ (AddAsk ctx stored price size).storage.Power ∧
      ∀ (i : Nat) (sector : Sector), stored.Sectors.get? i = some sector →
        sector.CommR ≠ none →
        (AddAsk ctx stored price size).storage.Sectors.get? i = some sector
    rw [AddAsk_storage]
    rcases WithStorage_storage_cases stored (addAskBody ctx price size) with h1 | ⟨_, _, h1⟩
    · rw [h1]; exact ⟨Nat.le_refl _, fun _ _ h _ => h⟩
    · rw [h1, addAskBody_fields]; exact ⟨Nat.le_refl _, fun _ _ h _ => h⟩
  | addDealsToSector sectorID deals =>
    show stored.Power ≤ (AddDealsToSector stored sectorID deals).storage.Power ∧
      ∀ (i : Nat) (sector : Sector), stored.Sectors.get? i = some sector →
        sector.CommR ≠ none →
        (AddDealsToSector stored sectorID deals).storage.Sectors.get? i = some sector
    unfold AddDealsToSector
    rw [returnSectorID_storage]
    rcases WithStorage_storage_cases stored (addDealsToSectorBody sectorID deals)
      with h1 | ⟨_, _, h1⟩
    · rw [h1]; exact ⟨Nat.le_refl _, fun _ _ h _ => h⟩
    · rw [h1]
      have hb : (addDealsToSectorBody sectorID deals stored).mstore
          = (upsertDealsToSector stored sectorID deals).1 := by
        unfold addDealsToSectorBody
        split <;> (rename_i heq; rw [heq])
      rw [hb]
      refine ⟨?_, upsertDealsToSector_frozen stored sectorID deals⟩
      rw [upsertDealsToSector_fields]
  | commitSector ctx sectorID commR deals =>
    show stored.Power ≤ (CommitSector ctx stored sectorID commR deals).storage.Power ∧
      ∀ (i : Nat) (sector : Sector), stored.Sectors.get? i = some sector →
        sector.CommR ≠ none →
        (CommitSector ctx stored sectorID commR deals).storage.Sectors.get? i = some sector
    unfold CommitSector
    rw [returnSectorID_storage]
    rcases WithStorage_storage_cases stored (commitSectorBody ctx sectorID commR deals)
      with h1 | ⟨_, _, h1⟩
    · rw [h1]; exact ⟨Nat.le_refl _, fun _ _ h _ => h⟩
    · rw [h1]
      exact (commitSectorBody_effect ctx sectorID commR deals stored).2

/-- C12: a committed sector is frozen.  For every call (`AddAsk`, `AddDealsToSector`,
`CommitSector`) with every input, a sector that carries a commitment proof before the call
is found at the same index, with the same proof and the same deals, in the ledger persisted
after the call. -/
theorem committed_sector_frozen (stored : Storage) (c : Call) (i : Nat) (sector : Sector)
    (hget : stored.Sectors.get? i = some sector) (hcom : sector.CommR ≠ none) :
    (c.run stored).storage.Sectors.get? i = some sector :=
  (Call_run_effect stored c).2 i sector hget hcom

/-- Witness for C12: sector 0 of the ledger with a committed sector, under a `CommitSector`
call that names it and brings a further deal. -/
theorem committed_sector_frozen_witness :
    ((Call.commitSector ownerCtx 0 (some [2]) [8]).run committedLedger).storage.Sectors.get? 0
      = some { CommR := some [1], Deals := [7] } :=
  committed_sector_frozen committedLedger (Call.commitSector ownerCtx 0 (some [2]) [8]) 0
    { CommR := some [1], Deals := [7] } rfl (by decide)

/-- C13: power never decreases.  For every call (`AddAsk`, `AddDealsToSector`,
`CommitSector`) with every input and every answer of the storage market, the `Power` of the
ledger persisted after the call is at least the `Power` before it. -/
theorem power_monotone (stored : Storage) (c : Call) :
    stored.Power ≤ (c.run stored).storage.Power :=
  (Call_run_effect stored c).1

/-- C14: if forwarding the ask fails (`Send` returns an error, or a non-zero exit code, or
the returned id cannot be decoded), `AddAsk` returns a nil id, exit code 1 and an error, and
the persisted ledger, `LockedStorage` included, is the one before the call. -/
theorem AddAsk_forward_failure (ctx : VMContext) (stored : Storage) (price : TokenAmount)
    (size : BytesAmount)
    (hfail : (ctx.Send (Message.addAsk price size)).err ≠ none ∨
      (ctx.Send (Message.addAsk price size)).ret ≠ 0 ∨
      ∃ e, ctx.DeserializeInteger (ctx.Send (Message.addAsk price size)).out = .error e) :
    (∃ e, (AddAsk ctx stored price size).ret = .returned none 1 (some e)) ∧
    (AddAsk ctx stored price size).storage = stored ∧
    (AddAsk ctx stored price size).storage.LockedStorage = stored.LockedStorage := by
  have key : (∃ e, (AddAsk ctx stored price size).ret = .returned none 1 (some e)) ∧
      (AddAsk ctx stored price size).storage = stored := by
    unfold AddAsk WithStorage addAskBody
    by_cases ho : ctx.From = stored.Owner
    · simp only [ho, ne_eq, not_true_eq_false, if_false]
      by_cases hgt : stored.LockedStorage + size > stored.PledgeBytes
      · simp only [hgt, if_true]
        exact ⟨⟨_, rfl⟩, trivial⟩
      · simp only [hgt, if_false]
        cases hs : (ctx.Send (Message.addAsk price size)).err with
        | some e => exact ⟨⟨_, rfl⟩, rfl⟩
        | none =>
          dsimp only
          cases hd : ctx.DeserializeInteger (ctx.Send (Message.addAsk price size)).out with
          | error e => exact ⟨⟨_, rfl⟩, rfl⟩
          | ok askID =>
            dsimp only
            have hr : (ctx.Send (Message.addAsk price size)).ret ≠ 0 := by
              rcases hfail with h | h | ⟨e, h⟩
              · exact absurd hs h
              · exact h
              · rw [hd] at h; cases h
            simp only [ne_eq, hr, not_false_eq_true, if_true]
            exact ⟨⟨_, rfl⟩, trivial⟩
    · simp only [ne_eq, ho, not_false_eq_true, if_true]
      exact ⟨⟨_, rfl⟩, trivial⟩
  exact ⟨key.1, key.2, by rw [key.2]⟩

/-- Witness for C14: the owner asks within the pledge and the storage market refuses with
exit code 1. -/
theorem AddAsk_forward_failure_witness :
    (∃ e, (AddAsk refusedCtx exampleLedger 2 6).ret = .returned none 1 (some e)) ∧
    (AddAsk refusedCtx exampleLedger 2 6).storage = exampleLedger ∧
    (AddAsk refusedCtx exampleLedger 2 6).storage.LockedStorage
      = exampleLedger.LockedStorage :=
  AddAsk_forward_failure refusedCtx exampleLedger 2 6 (Or.inr (Or.inl (by decide)))

/-- The error `CommitSector` reports when the `commitDeals` call failed with result `r`. -/
theorem commitResolved_failure (ctx : VMContext) (commR : Option (List Byte))
    (mstore : Storage) (sectorID : Int) (ds : List Nat)
    (hsent : (commitResolved ctx commR mstore sectorID).sent = [Message.commitDeals ds])
    (hfail : (ctx.Send (Message.commitDeals ds)).err ≠ none ∨
      (ctx.Send (Message.commitDeals ds)).ret ≠ 0) :
    (commitResolved ctx commR mstore sectorID).result =
      .error (match (ctx.Send (Message.commitDeals ds)).err with
        | some cause => VMError.sendFailed cause
        | none => VMError.revert "failed to call commitDeals") := by
  unfold commitResolved at hsent ⊢
  cases hidx : index mstore.Sectors sectorID with
  | none =>
    simp only [hidx] at hsent
    cases hsent
  | some target =>
    simp only [hidx] at hsent ⊢
    by_cases hc : target.CommR = none
    · simp only [hc, ne_eq, not_true_eq_false, if_false] at hsent ⊢
      have hds : target.Deals = ds := by
        cases hs : (ctx.Send (Message.commitDeals target.Deals)).err with
        | some e =>
          simp only [hs] at hsent
          injection hsent with h1 _
          injection h1
        | none =>
          simp only [hs] at hsent
          by_cases hr : (ctx.Send (Message.commitDeals target.Deals)).ret = 0
          · simp only [hr, not_true_eq_false, if_false] at hsent
            injection hsent with h1 _
            injection h1
          · simp only [hr, not_false_eq_true, if_true] at hsent
            injection hsent with h1 _
            injection h1
      subst hds
      cases hs : (ctx.Send (Message.commitDeals target.Deals)).err with
      | some e => simp only [hs]
      | none =>
        have hr : (ctx.Send (Message.commitDeals target.Deals)).ret ≠ 0 := by
          rcases hfail with h | h
          · exact absurd hs h
          · exact h
        simp only [hs, hr, ne_eq, not_false_eq_true, if_true]
    · simp only [ne_eq, hc, not_false_eq_true, if_true] at hsent
      cases hsent

theorem commitSectorBody_failure (ctx : VMContext) (sectorID : Int)
    (commR : Option (List Byte)) (deals : List Nat) (mstore : Storage) (ds : List Nat)
    (hsent : (commitSectorBody ctx sectorID commR deals mstore).sent
      = [Message.commitDeals ds])
    (hfail : (ctx.Send (Message.commitDeals ds)).err ≠ none ∨
      (ctx.Send (Message.commitDeals ds)).ret ≠ 0) :
    (commitSectorBody ctx sectorID commR deals mstore).result =
      .error (match (ctx.Send (Message.commitDeals ds)).err with
        | some cause => VMError.sendFailed cause
        | none => VMError.revert "failed to call commitDeals") := by
  unfold commitSectorBody at hsent ⊢
  split
  · rename_i hd
    rw [if_pos hd] at hsent
    split
    · rename_i m e heq
      rw [heq] at hsent
      cases hsent
    · rename_i m heq
      rw [heq] at hsent
      cases hsent
    · rename_i m sid heq
      rw [heq] at hsent
      exact commitResolved_failure ctx commR m sid ds hsent hfail
  · rename_i hd
    rw [if_neg hd] at hsent
    exact commitResolved_failure ctx commR mstore sectorID ds hsent hfail

theorem CommitSector_sent (ctx : VMContext) (stored : Storage) (sectorID : Int)
    (commR : Option (List Byte)) (deals : List Nat) :
    (CommitSector ctx stored sectorID commR deals).sent
      = (commitSectorBody ctx sectorID commR deals stored).sent := by
  unfold CommitSector WithStorage
  cases h : (commitSectorBody ctx sectorID commR deals stored).result with
  | ok v => cases v <;> simp only [h, returnSectorID]
  | error e => simp only [h, returnSectorID]
  | panic => simp only [h, returnSectorID]

theorem CommitSector_of_body_error (ctx : VMContext) (stored : Storage) (sectorID : Int)
    (commR : Option (List Byte)) (deals : List Nat) (e : VMError)
    (h : (commitSectorBody ctx sectorID commR deals stored).result = .error e) :
    (CommitSector ctx stored sectorID commR deals).ret = .returned none 1 (some e) ∧
    (CommitSector ctx stored sectorID commR deals).storage = stored := by
  unfold CommitSector WithStorage
  simp only [h, returnSectorID]
  exact ⟨trivial, trivial⟩

/-- C15: if `CommitSector` reaches the storage market (it sends `commitDeals ds`) and that
call returns an error or a non-zero exit code, `CommitSector` returns a nil id, exit code 1
and the error (the one `Send` gave, or "failed to call commitDeals"), and the persisted
ledger is the ledger before the call: no new sector, no added deals, no proof, same
`Power`. -/
theorem CommitSector_market_failure (ctx : VMContext) (stored : Storage) (sectorID : Int)
    (commR : Option (List Byte)) (deals : List Nat) (ds : List Nat)
    (hsent : (CommitSector ctx stored sectorID commR deals).sent = [Message.commitDeals ds])
    (hfail : (ctx.Send (Message.commitDeals ds)).err ≠ none ∨
      (ctx.Send (Message.commitDeals ds)).ret ≠ 0) :
    (CommitSector ctx stored sectorID commR deals).ret =
      .returned none 1 (some (match (ctx.Send (Message.commitDeals ds)).err with
        | some cause => VMError.sendFailed cause
        | none => VMError.revert "failed to call commitDeals")) ∧
    (CommitSector ctx stored sectorID commR deals).storage = stored := by
  rw [CommitSector_sent] at hsent
  exact CommitSector_of_body_error ctx stored sectorID commR deals _
    (commitSectorBody_failure ctx sectorID commR deals stored ds hsent hfail)

/-- Witness for C15: the market refuses the commitment of a new sector with deal 8. -/
theorem CommitSector_market_failure_witness :
    (CommitSector refusedCtx exampleLedger (-1) (some [1]) [8]).ret =
      .returned none 1 (some (match (refusedCtx.Send (Message.commitDeals [8])).err with
        | some cause => VMError.sendFailed cause
        | none => VMError.revert "failed to call commitDeals")) ∧
    (CommitSector refusedCtx exampleLedger (-1) (some [1]) [8]).storage = exampleLedger :=
  CommitSector_market_failure refusedCtx exampleLedger (-1) (some [1]) [8] [8] rfl
    (Or.inr (by decide))

/-- C16: for every caller other than the owner, whatever the price and the size (also a size
beyond the pledge), `AddAsk` returns `ErrCallerUnauthorized` with exit code 1, sends nothing
and persists the ledger unchanged. -/
theorem AddAsk_unauthorized (ctx : VMContext) (stored : Storage) (price : TokenAmount)
    (size : BytesAmount) (h : ctx.From ≠ stored.Owner) :
    AddAsk ctx stored price size =
      { storage := stored, sent := [],
        ret := .returned none 1 (some ErrCallerUnauthorized) } := by
  unfold AddAsk WithStorage addAskBody
  simp only [ne_eq, h, not_false_eq_true, if_true]

/-- Witness for C16: address 2 asks for 100 bytes of a ledger that address 1 owns and that
pledges 10. -/
theorem AddAsk_unauthorized_witness :
    AddAsk strangerCtx exampleLedger 2 100 =
      { storage := exampleLedger, sent := [],
        ret := .returned none 1 (some ErrCallerUnauthorized) } :=
  AddAsk_unauthorized strangerCtx exampleLedger 2 100 (by decide)

/-- C17: `AddDealsToSector` on an existing uncommitted sector `i` returns `i` with exit code
0 and sends nothing; the persisted ledger is the old one with sector `i` holding its previous
deals followed by the given ones: the number of sectors, every other sector, owner, pledge,
collateral, locked storage and power are as before. -/
theorem AddDealsToSector_existing (stored : Storage) (i : Nat) (sector : Sector)
    (deals : List Nat) (hget : stored.Sectors.get? i = some sector)
    (hc : sector.CommR = none) :
    AddDealsToSector stored (i : Int) deals =
      { storage :=
          { stored with
            Sectors := stored.Sectors.set i { CommR := none, Deals := sector.Deals ++ deals } },
        sent := [],
        ret := .returned (some (i : Int)) 0 none } ∧
    (AddDealsToSector stored (i : Int) deals).storage.Sectors.length
      = stored.Sectors.length ∧
    (AddDealsToSector stored (i : Int) deals).storage.Sectors.get? i
      = some { CommR := none, Deals := sector.Deals ++ deals } ∧
    ∀ j : Nat, j ≠ i →
      (AddDealsToSector stored (i : Int) deals).storage.Sectors.get? j
        = stored.Sectors.get? j := by
  have hlt := get?_lt_length _ _ _ hget
  have h : AddDealsToSector stored (i : Int) deals =
      { storage :=
          { stored with
            Sectors := stored.Sectors.set i { CommR := none, Deals := sector.Deals ++ deals } },
        sent := [],
        ret := .returned (some (i : Int)) 0 none } := by
    rw [AddDealsToSector_eq, upsertDealsToSector_existing stored i sector deals hget hc]
    simp [hc]
  rw [h]
  refine ⟨rfl, by simp, ?_, ?_⟩
  · simp [List.getElem?_set, hlt]
  · intro j hj
    simp [List.getElem?_set_ne (Ne.symm hj)]

/-- Witness for C17: deal 8 is added to sector 0 of the example ledger, which holds deal
7. -/
theorem AddDealsToSector_existing_witness :
    AddDealsToSector exampleLedger ((0 : Nat) : Int) [8] =
      { storage :=
          { exampleLedger with
            Sectors := exampleLedger.Sectors.set 0 { CommR := none, Deals := [7] ++ [8] } },
        sent := [],
        ret := .returned (some ((0 : Nat) : Int)) 0 none } ∧
    (AddDealsToSector exampleLedger ((0 : Nat) : Int) [8]).storage.Sectors.length
      = exampleLedger.Sectors.length ∧
    (AddDealsToSector exampleLedger ((0 : Nat) : Int) [8]).storage.Sectors.get? 0
      = some { CommR := none, Deals := [7] ++ [8] } ∧
    ∀ j : Nat, j ≠ 0 →
      (AddDealsToSector exampleLedger ((0 : Nat) : Int) [8]).storage.Sectors.get? j
        = exampleLedger.Sectors.get? j :=
  AddDealsToSector_existing exampleLedger 0 { CommR := none, Deals := [7] } [8] rfl rfl

/-- C19: when the owner asks within the pledge and the storage market accepts (nil error,
exit code 0, an id that decodes to `askID`), `AddAsk` returns `askID` with exit code 0 and no
error, after sending exactly that ask, and the persisted ledger is the old one with
`LockedStorage` increased by `size`. -/
theorem AddAsk_accepted (ctx : VMContext) (stored : Storage) (price : TokenAmount)
    (size : BytesAmount) (out : List Byte) (askID : Int)
    (hOwner : ctx.From = stored.Owner)
    (hcap : stored.LockedStorage + size ≤ stored.PledgeBytes)
    (hsend : ctx.Send (Message.addAsk price size) = { out := out, ret := 0, err := none })
    (hdec : ctx.DeserializeInteger out = .ok askID) :
    AddAsk ctx stored price size =
      { storage := { stored with LockedStorage := stored.LockedStorage + size },
        sent := [Message.addAsk price size],
        ret := .returned (some askID) 0 none } := by
  have hgt : ¬ (stored.LockedStorage + size > stored.PledgeBytes) := Nat.not_lt.mpr hcap
  unfold AddAsk WithStorage addAskBody
  simp only [hOwner, ne_eq, not_true_eq_false, if_false, hgt, hsend, hdec]

/-- Witness for C19: the owner of the example ledger (4 of 10 locked) asks for 6 bytes; the
market answers `[9]`, which decodes to ask id 9. -/
theorem AddAsk_accepted_witness :
    AddAsk ownerCtx exampleLedger 2 6 =
      { storage := { exampleLedger with LockedStorage := exampleLedger.LockedStorage + 6 },
        sent := [Message.addAsk 2 6],
        ret := .returned (some 9) 0 none } :=
  AddAsk_accepted ownerCtx exampleLedger 2 6 [9] 9 rfl (by decide) rfl rfl

/-- A committed sector refuses further deals through `AddDealsToSector`, and the ledger stays
as it was. -/
theorem AddDealsToSector_committed (stored : Storage) (i : Nat) (sector : Sector)
    (deals : List Nat) (hget : stored.Sectors.get? i = some sector)
    (hcom : sector.CommR ≠ none) :
    AddDealsToSector stored (i : Int) deals =
      { storage := stored, sent := [],
        ret := .returned none 1 (some (.revert "can't add deals to committed sector")) } := by
  rw [AddDealsToSector_eq, upsertDealsToSector_committed stored i sector deals hget hcom]

/-- A committed sector cannot be committed again: `CommitSector` sends nothing, returns an
error and leaves the ledger as it was. -/
theorem CommitSector_committed (ctx : VMContext) (stored : Storage) (i : Nat)
    (sector : Sector) (commR : Option (List Byte)) (deals : List Nat)
    (hget : stored.Sectors.get? i = some sector) (hcom : sector.CommR ≠ none) :
    CommitSector ctx stored (i : Int) commR deals =
      { storage := stored, sent := [],
        ret := .returned none 1 (some (.revert
          (if deals.length ≠ 0 then "can't add deals to committed sector"
           else "sector already committed"))) } := by
  unfold CommitSector WithStorage commitSectorBody
  by_cases hd : deals.length ≠ 0
  · rw [if_pos hd, if_pos hd, upsertDealsToSector_committed stored i sector deals hget hcom]
    rfl
  · rw [if_neg hd, if_neg hd]
    unfold commitResolved
    rw [index_natCast _ _ _ hget]
    simp only [ne_eq, hcom, not_false_eq_true, if_true]
    rfl

/-- The part of C11 that holds: after `CommitSector` has committed an existing sector with a
non-nil proof, that sector refuses further deals and a further `CommitSector`, which leaves
the ledger, its `Power` included, as it was. -/
theorem CommitSector_with_proof_is_final (ctx : VMContext) (stored : Storage) (i : Nat)
    (sector : Sector) (proof : List Byte) (deals : List Nat) (out : List Byte)
    (hget : stored.Sectors.get? i = some sector) (hc : sector.CommR = none)
    (hsend : ctx.Send (Message.commitDeals (sector.Deals ++ deals))
      = { out := out, ret := 0, err := none })
    (ctx2 : VMContext) (commR2 : Option (List Byte)) (deals2 : List Nat) :
    AddDealsToSector (CommitSector ctx stored (i : Int) (some proof) deals).storage
        (i : Int) deals2 =
      { storage := (CommitSector ctx stored (i : Int) (some proof) deals).storage, sent := [],
        ret := .returned none 1 (some (.revert "can't add deals to committed sector")) } ∧
    (CommitSector ctx2 (CommitSector ctx stored (i : Int) (some proof) deals).storage
        (i : Int) commR2 deals2).storage
      = (CommitSector ctx stored (i : Int) (some proof) deals).storage ∧
    (CommitSector ctx2 (CommitSector ctx stored (i : Int) (some proof) deals).storage
        (i : Int) commR2 deals2).sent = [] := by
  have hlt := get?_lt_length _ _ _ hget
  rw [CommitSector_of_body_ok ctx stored (i : Int) (some proof) deals _ _
    (commitSectorBody_existing ctx stored i sector (some proof) deals out hget hc hsend)]
  dsimp only
  have hget2 : (stored.Sectors.set i
      { CommR := some proof, Deals := sector.Deals ++ deals }).get? i
        = some { CommR := some proof, Deals := sector.Deals ++ deals } := by
    simp [List.getElem?_set, hlt]
  have hcom2 : ({ CommR := some proof, Deals := sector.Deals ++ deals } : Sector).CommR
      ≠ none := by simp
  refine ⟨?_, ?_, ?_⟩
  · exact AddDealsToSector_committed _ i _ deals2 hget2 hcom2
  · rw [CommitSector_committed ctx2 _ i _ commR2 deals2 hget2 hcom2]
  · rw [CommitSector_committed ctx2 _ i _ commR2 deals2 hget2 hcom2]

/-- C11 fails for a nil proof: committing sector 0 of the example ledger with `commR = nil`
adds the power (3 to 12) and leaves `CommR` nil, so the sector still counts as uncommitted: a
later `AddDealsToSector` on it succeeds, and a second `CommitSector` adds the power again
(12 to 21). -/
theorem CommitSector_nil_proof_not_final :
    (CommitSector ownerCtx exampleLedger 0 none []).storage
      = { exampleLedger with Power := 12 } ∧
    AddDealsToSector { exampleLedger with Power := 12 } 0 [8] =
      { storage :=
          { exampleLedger with
            Sectors := [{ CommR := none, Deals := [7, 8] }]
            Power := 12 },
        sent := [], ret := .returned (some 0) 0 none } ∧
    (CommitSector ownerCtx { exampleLedger with Power := 12 } 0 none []).storage
      = { exampleLedger with Power := 21 } := by
  refine ⟨rfl, rfl, rfl⟩

/-- With the sentinel `-1` and no deals, `CommitSector` skips the allocation and evaluates
`mstore.Sectors[-1]`: it panics, sends nothing and persists nothing. -/
theorem CommitSector_new_without_deals (ctx : VMContext) (stored : Storage)
    (commR : Option (List Byte)) :
    CommitSector ctx stored (-1) commR [] =
      { storage := stored, sent := [], ret := .panicked } := by
  unfold CommitSector WithStorage commitSectorBody
  have hd : ¬ (([] : List Nat).length ≠ 0) := by simp
  rw [if_neg hd]
  unfold commitResolved
  rw [index_neg _ _ (by omega)]
  rfl

/-- C18 fails for the empty deal list: `CommitSector` with sector id `-1` and no deals on the
example ledger allocates nothing and commits nothing, it panics on `mstore.Sectors[-1]`;
with the deal list `[8]` it does allocate sector 1 and commit it. -/
theorem CommitSector_new_without_deals_panics :
    CommitSector ownerCtx exampleLedger (-1) (some [1]) [] =
      { storage := exampleLedger, sent := [], ret := .panicked } ∧
    (CommitSector ownerCtx exampleLedger (-1) (some [1]) [8]).storage =
      { exampleLedger with
        Sectors := [{ CommR := none, Deals := [7] }, { CommR := some [1], Deals := [8] }]
        Power := 12 } := by
  refine ⟨rfl, rfl⟩

end miner

/-! ## Facts about the bin packer -/

namespace binpack

theorem PackItemIntoBin_not_full (C u k s : Nat) (hC : C < spaceModulus) (hlt : u + s < C) :
    PackItemIntoBin { binSize := C, currentBinUsed := u, closeCount := k } { size := s } =
      ({ binSize := C, currentBinUsed := u + s, closeCount := k }, none) := by
  unfold spaceModulus at hC
  have h1 : ¬ (s > C) := by omega
  have h2 : ¬ (s > (C + 2 ^ 64 - u % 2 ^ 64) % 2 ^ 64) := by omega
  have h3 : (u + s) % 2 ^ 64 = u + s := by omega
  have h4 : ¬ ((C + 2 ^ 64 - (u + s)) % 2 ^ 64 = 0) := by omega
  simp only [PackItemIntoBin, testBinner.ItemSize, testBinner.BinSize,
    testBinner.SpaceAvailable, testBinner.AddItem, testBinner.CloseBin, spaceModulus,
    h1, h2, h3, h4, if_false]

theorem PackItemIntoBin_exactly_full (C u k s : Nat) (hC : C < spaceModulus)
    (heq : u + s = C) :
    PackItemIntoBin { binSize := C, currentBinUsed := u, closeCount := k } { size := s } =
      ({ binSize := C, currentBinUsed := 0, closeCount := k + 1 }, none) := by
  unfold spaceModulus at hC
  have h1 : ¬ (s > C) := by omega
  have h2 : ¬ (s > (C + 2 ^ 64 - u % 2 ^ 64) % 2 ^ 64) := by omega
  have h3 : (u + s) % 2 ^ 64 = u + s := by omega
  have h4 : (C + 2 ^ 64 - (u + s)) % 2 ^ 64 = 0 := by omega
  simp only [PackItemIntoBin, testBinner.ItemSize, testBinner.BinSize,
    testBinner.SpaceAvailable, testBinner.AddItem, testBinner.CloseBin, spaceModulus,
    h1, h2, h3, h4, if_false, if_true]

/-- C22: for bin capacity `C`, used space `u`, close count `k` and an item of size `s ≤ C`:
if `u + s < C` the item is added, the used space becomes `u + s` and no bin is closed; if
`u + s = C` the item is added and the bin is closed, so the used space is 0 and the close
count `k + 1`.  Packing sizes 10, 8, 2, 5 into bins of capacity 20 gives used space
10, 18, 0, 5 with close counts 0, 0, 1, 1, as in `TestNaivePacker`. -/
theorem PackItemIntoBin_fits :
    (∀ (C u k s : Nat), C < spaceModulus → s ≤ C →
        (u + s < C →
          PackItemIntoBin { binSize := C, currentBinUsed := u, closeCount := k } { size := s }
            = ({ binSize := C, currentBinUsed := u + s, closeCount := k }, none)) ∧
        (u + s = C →
          PackItemIntoBin { binSize := C, currentBinUsed := u, closeCount := k } { size := s }
            = ({ binSize := C, currentBinUsed := 0, closeCount := k + 1 }, none))) ∧
    (PackItemIntoBin testBinner20 { size := 10 }
        = ({ binSize := 20, currentBinUsed := 10, closeCount := 0 }, none) ∧
      PackItemIntoBin { binSize := 20, currentBinUsed := 10, closeCount := 0 } { size := 8 }
        = ({ binSize := 20, currentBinUsed := 18, closeCount := 0 }, none) ∧
      PackItemIntoBin { binSize := 20, currentBinUsed := 18, closeCount := 0 } { size := 2 }
        = ({ binSize := 20, currentBinUsed := 0, closeCount := 1 }, none) ∧
      PackItemIntoBin { binSize := 20, currentBinUsed := 0, closeCount := 1 } { size := 5 }
        = ({ binSize := 20, currentBinUsed := 5, closeCount := 1 }, none)) := by
  refine ⟨?_, ?_⟩
  · intro C u k s hC _
    exact ⟨PackItemIntoBin_not_full C u k s hC, PackItemIntoBin_exactly_full C u k s hC⟩
  · refine ⟨?_, ?_, ?_, ?_⟩ <;> decide

/-- Witness for C22: the third step of `TestNaivePacker`, 2 more into 18 of 20. -/
theorem PackItemIntoBin_fits_witness :
    (18 + 2 < 20 →
      PackItemIntoBin { binSize := 20, currentBinUsed := 18, closeCount := 0 } { size := 2 }
        = ({ binSize := 20, currentBinUsed := 18 + 2, closeCount := 0 }, none)) ∧
    (18 + 2 = 20 →
      PackItemIntoBin { binSize := 20, currentBinUsed := 18, closeCount := 0 } { size := 2 }
        = ({ binSize := 20, currentBinUsed := 0, closeCount := 0 + 1 }, none)) :=
  PackItemIntoBin_fits.1 20 18 0 2 (by decide) (by decide)

/-- C23: for every state of the binner, packing an item whose size exceeds the size of an
empty bin fails with "item too large for bin" and leaves the binner, its used space and close
count included, as it was. -/
theorem PackItemIntoBin_too_large (tb : testBinner) (item : testItem)
    (h : item.size > tb.binSize) :
    PackItemIntoBin tb item = (tb, some "item too large for bin") ∧
    (PackItemIntoBin tb item).1.currentBinUsed = tb.currentBinUsed ∧
    (PackItemIntoBin tb item).1.closeCount = tb.closeCount := by
  have heq : PackItemIntoBin tb item = (tb, some "item too large for bin") := by
    simp only [PackItemIntoBin, testBinner.ItemSize, testBinner.BinSize, h, if_true]
  rw [heq]
  exact ⟨rfl, rfl, rfl⟩

/-- Witness for C23: the last step of `TestNaivePacker`, size 25 offered to bins of 20 with
5 used and one bin closed. -/
theorem PackItemIntoBin_too_large_witness :
    PackItemIntoBin { binSize := 20, currentBinUsed := 5, closeCount := 1 } { size := 25 }
      = ({ binSize := 20, currentBinUsed := 5, closeCount := 1 },
          some "item too large for bin") ∧
    (PackItemIntoBin { binSize := 20, currentBinUsed := 5, closeCount := 1 }
      { size := 25 }).1.currentBinUsed = 5 ∧
    (PackItemIntoBin { binSize := 20, currentBinUsed := 5, closeCount := 1 }
      { size := 25 }).1.closeCount = 1 :=
  PackItemIntoBin_too_large { binSize := 20, currentBinUsed := 5, closeCount := 1 }
    { size := 25 } (by decide)

end binpack

end Filecoin
